/-
Verification of the academic-mcp document pipeline against its
natural-language specification.

The Go sources are shallowly embedded: pure functions become Lean
functions, the SQLite store becomes explicit state passing over a
relational state, machine integers become Nat/Int, float64 confidence
values and ratio comparisons become exact rationals (the Go code only
compares ratios against the literals 0.6, 0.7 and 0.2 — at every input
exercised here the float64 comparison agrees with the exact rational
one), and fallible code returns Option/Except.  Names follow the Go
sources (internal/llm/page-numbering.go, internal/llm/ratelimit.go,
internal/storage/storage.go, internal/storage/sqlite.go,
internal/operations/operations.go, resources/pdf-resources.go,
tools/document-summarize.go, tools/document-quotations.go, the
citations package and the llm quotation extractor).
-/
import Mathlib

set_option maxHeartbeats 1000000
set_option maxRecDepth 100000

namespace AcademicMCP

/-! ## Data model (package `models`)

Mirrors the `models` package structs: `ItemMetadata`, `Reference`,
`Image`, `Table`, `Footnote`, `Endnote`, `Quotation`, `ParsedPage`
(with its `PageNumberInfo`), `ParsedItem`, `SourceInfo` and
`DocumentData`.  The `summary` and `quotations` fields of `ParsedItem`
are modelled from the spec: the current `models.go` revision that
declares them is absent from the source tree, but the spec's data
model ("Holds derived state: `Summary` ... and ordered sequences of
... `Quotation`") and the tool handlers that read and write
`parsedItem.Summary` / `parsedItem.Quotations` fix their shape.
Likewise `ItemMetadata` carries the spec's sixteen fields, whose shape
the in-source callers pin down: `documents/metadata.go` assigns
`MetadataSource` and copies `ItemType`, `Publisher`, `Volume`,
`Issue`, `Pages`, `ISSN`, `ISBN`, `URL`; `operations.go` writes
`Metadata.MetadataSource`; `bibliography-export.go` reads
`metadata.Citekey`.  Only the first six are `documents`-table columns
of the store revision. -/

structure ItemMetadata where
  title : String
  authors : List String
  publicationDate : String
  publication : String
  doi : String
  abstract : String
  itemType : String
  publisher : String
  volume : String
  issue : String
  pages : String
  issn : String
  isbn : String
  url : String
  citekey : String
  metadataSource : String
deriving Repr, DecidableEq

def ItemMetadata.empty : ItemMetadata :=
  ⟨"", [], "", "", "", "", "", "", "", "", "", "", "", "", "", ""⟩

structure Reference where
  referenceText : String
  doi : String
deriving Repr, DecidableEq

structure Image where
  imageURL : String
  imageDescription : String
  caption : String
deriving Repr, DecidableEq

structure Table where
  tableID : String
  tableTitle : String
  tableData : String
deriving Repr, DecidableEq

structure Footnote where
  marker : String
  text : String
  pageNumber : String
  inTextPage : String
deriving Repr, DecidableEq

structure Endnote where
  marker : String
  text : String
  pageNumber : String
deriving Repr, DecidableEq

structure Quotation where
  quotationText : String
  pageNumber : String
  context : String
  relevance : String
deriving Repr, DecidableEq

/-- `models.PageNumberInfo`: the printed page number detected on a
page.  `confidence` is a float64 in Go, modelled as an exact
rational. -/
structure PageNumberInfo where
  pageNumber : String
  confidence : ℚ
  location : String
  pageRangeInfo : String
deriving Repr, DecidableEq

/-- `models.ParsedPage`: the structured result of parsing one page. -/
structure ParsedPage where
  metadata : ItemMetadata
  content : String
  images : List Image
  tables : List Table
  references : List Reference
  footnotes : List Footnote
  endnotes : List Endnote
  pageNumberInfo : PageNumberInfo
deriving Repr, DecidableEq

/-- `models.ParsedItem`: the aggregate document record.  `summary` and
`quotations` are modelled from the spec (see the section comment). -/
structure ParsedItem where
  metadata : ItemMetadata
  pages : List String
  pageNumbers : List String
  references : List Reference
  images : List Image
  tables : List Table
  footnotes : List Footnote
  endnotes : List Endnote
  summary : String
  quotations : List Quotation
deriving Repr, DecidableEq

structure SourceInfo where
  zoteroID : String
  url : String
deriving Repr, DecidableEq

/-- `models.DocumentData`: raw bytes (as Nat codes 0..255) plus the
detected type tag. -/
structure DocumentData where
  data : List Nat
  type : String
deriving Repr, DecidableEq

/-! ## `fmt.Sprintf("%d", x)`

Decimal formatting of integers, as produced by Go's `%d` verb.
Defined through `Nat.digits` so that injectivity is available. -/

/-- Little-endian decimal digits, with explicit fuel so that the
recursion is structural and the kernel can evaluate it.  With fuel ≥ n
this agrees with `Nat.digits 10 n` (proved below). -/
def natDigitsRevFuel : Nat → Nat → List Nat
  | 0, _ => []
  | fuel + 1, n => if n = 0 then [] else n % 10 :: natDigitsRevFuel fuel (n / 10)

/-- `fmt.Sprintf("%d", n)` for a non-negative value: standard decimal
notation, most significant digit first. -/
def goSprintfD (n : Nat) : String :=
  if n = 0 then "0" else String.mk ((natDigitsRevFuel n n).map Nat.digitChar).reverse

/-- `fmt.Sprintf("%d", i)` for a Go `int`: a leading minus sign for
negative values. -/
def goSprintfDInt (i : Int) : String :=
  if i < 0 then "-" ++ goSprintfD i.natAbs else goSprintfD i.natAbs

/-! ## `fmt.Sscanf(s, "%d", &num)`

The page-numbering code parses labels with `fmt.Sscanf`.  The `%d`
verb skips leading whitespace, accepts an optional sign, consumes a
maximal run of decimal digits and succeeds as soon as one digit was
read — trailing garbage is ignored ("125abc" parses as 125).
(Int64 overflow is not modelled; no input considered here gets near
it.) -/

def scanDigits : List Char → Nat → Nat × List Char
  | [], acc => (acc, [])
  | c :: cs, acc =>
    if c.isDigit then scanDigits cs (acc * 10 + (c.toNat - 48))
    else (acc, c :: cs)

def goScanIntCore (cs : List Char) : Option Int :=
  let cs := cs.dropWhile Char.isWhitespace
  match cs with
  | '-' :: rest =>
    if rest.headD ' ' |>.isDigit then some (-(scanDigits rest 0).1) else none
  | '+' :: rest =>
    if rest.headD ' ' |>.isDigit then some ((scanDigits rest 0).1) else none
  | rest =>
    if rest.headD ' ' |>.isDigit then some ((scanDigits rest 0).1) else none

/-- `fmt.Sscanf(s, "%d", &num)` as an `Option Int`: `none` is the
error case. -/
def goScanInt (s : String) : Option Int :=
  goScanIntCore s.data

/-! ## Page-number validation (`internal/llm/page-numbering.go`)

`validatePageNumbers` receives `[]*models.ParsedPage`.  In the
pipeline every entry is non-nil (`ParsePDF` aborts on any page error
before calling it), so the `page != nil` filter is the identity and
the embedding takes a plain `List ParsedPage`. -/

/-- `pageInfo`: detected page number information for validation. -/
structure PageInfo where
  number : String
  confidence : ℚ
  index : Nat
deriving Repr, DecidableEq

/-- The `pageInfo` record built for the page at a given index. -/
def detF (p : Nat × ParsedPage) : PageInfo :=
  ⟨p.2.pageNumberInfo.pageNumber, p.2.pageNumberInfo.confidence, p.1⟩

/-- The detected-pages extraction loop at the top of
`validatePageNumbers`. -/
def detectedPagesOf (pages : List ParsedPage) : List PageInfo :=
  pages.enum.map detF

/-- The `pageRangeInfo` capture loop: the last non-empty
`PageRangeInfo` among the first three pages wins. -/
def pageRangeInfoOf (pages : List ParsedPage) : String :=
  pages.enum.foldl
    (fun acc p =>
      if p.1 < 3 ∧ p.2.pageNumberInfo.pageRangeInfo ≠ "" then
        p.2.pageNumberInfo.pageRangeInfo
      else acc)
    ""

/-- A page counts toward coverage when `confidence >= 0.7` and the
detected label is non-empty (the set H of the spec). -/
def isConfident (p : PageInfo) : Bool :=
  mkRat 7 10 ≤ p.confidence ∧ p.number ≠ ""

/-- The `parsedNumbers` map: index → numeric page number, for
confident pages whose label scans as a positive integer. -/
def parsedNumbersOf (pages : List PageInfo) : List (Nat × Int) :=
  pages.filterMap fun p =>
    if isConfident p then
      match goScanInt p.number with
      | some num => if 0 < num then some (p.index, num) else none
      | none => none
    else none

def assocFind (l : List (Nat × Int)) (k : Nat) : Option Int :=
  (l.find? fun p => p.1 = k).map Prod.snd

/-- The consecutive-pair violation count of `isMonotonic`: a step
outside `prev+1 .. prev+4` is a violation. -/
def consecViolations : List Int → Nat
  | [] => 0
  | [_] => 0
  | a :: b :: rest =>
    (if b < a + 1 ∨ b > a + 4 then 1 else 0) + consecViolations (b :: rest)

/-- Ascending insertion sort on `Nat` keys.  The Go code bubble-sorts
the indices ascending; on the distinct keys it is applied to, any
ascending sort produces the same list. -/
def insertSorted (x : Nat) : List Nat → List Nat
  | [] => [x]
  | y :: ys => if x ≤ y then x :: y :: ys else y :: insertSorted x ys

def sortNat (l : List Nat) : List Nat :=
  l.foldr insertSorted []

/-- `isMonotonic`: page numbers generally increase with document
order, allowing gaps of up to 3 and up to 20% violations. -/
def isMonotonic (numbers : List (Nat × Int)) : Bool :=
  if numbers.length < 2 then false
  else
    let indices := sortNat (numbers.map Prod.fst)
    let vals := indices.filterMap (assocFind numbers)
    let violations := consecViolations vals
    mkRat violations (numbers.length - 1) ≤ mkRat 1 5

/-- `useSourceNumbers`: adopt printed numbers only with ≥60% coverage,
at least one positive numeric label, and a near-monotone sequence.
(The `rangeInfo` parameter is unused in the Go body as well.) -/
def useSourceNumbers (pages : List PageInfo) (_rangeInfo : String) : Bool :=
  let confidenPages := (pages.filter isConfident).length
  -- Go divides float64s; `mkRat` is the exact ratio.  (For an empty
  -- page list Go compares NaN, skips this test and still ends up
  -- returning false through the numeric-sequence test below; here the
  -- ratio 0/0 = 0 returns false directly — the same result.)
  if mkRat confidenPages pages.length < mkRat 6 10 then false
  else
    let parsedNumbers := parsedNumbersOf pages
    if parsedNumbers.isEmpty then false
    else isMonotonic parsedNumbers

/-- Largest numbered index strictly below the argument (the downward
search loop of the second pass). -/
def findPrevIdx (numbered : Nat → Bool) : Nat → Option Nat
  | 0 => none
  | j + 1 => if numbered j then some j else findPrevIdx numbered j

/-- The upward search loop of the second pass, fuelled so that the
recursion is structural (the fuel is the remaining iteration count). -/
def findNextIdxAux (numbered : Nat → Bool) : Nat → Nat → Option Nat
  | 0, _ => none
  | fuel + 1, j => if numbered j then some j else findNextIdxAux numbered fuel (j + 1)

/-- Smallest numbered index in `[j, n)` (the upward search loop). -/
def findNextIdx (numbered : Nat → Bool) (n j : Nat) : Option Nat :=
  findNextIdxAux numbered (n - j) j

/-- One step of the interpolation pass of `extractSourceNumbers` at
index `i`, acting on the pair (labels so far, numbered map). -/
def interpolateStep (n : Nat) (state : List String × (Nat → Bool)) (i : Nat) :
    List String × (Nat → Bool) :=
  let (result, numbered) := state
  if numbered i then state
  else
    match findPrevIdx numbered i, findNextIdx numbered n (i + 1) with
    | some prevIdx, some nextIdx =>
      match goScanInt (result.getD prevIdx ""), goScanInt (result.getD nextIdx "") with
      | some prevNum, some nextNum =>
        let gap : Int := (nextIdx : Int) - (prevIdx : Int)
        let expectedGap : Int := nextNum - prevNum
        if gap = expectedGap then
          let offset : Int := (i : Int) - (prevIdx : Int)
          (result.set i (goSprintfDInt (prevNum + offset)),
            fun j => if j = i then true else numbered j)
        else state
      | _, _ => state
    | _, _ => state

/-- One step of the first pass of `extractSourceNumbers`: record a
high-confidence detected number at its page index. -/
def firstPassStep (st : List String × (Nat → Bool)) (p : PageInfo) :
    List String × (Nat → Bool) :=
  if isConfident p then
    (st.1.set p.index p.number, fun j => if j = p.index then true else st.2 j)
  else st

/-- `extractSourceNumbers`: adopt high-confidence labels verbatim,
interpolate exact gaps between numeric anchors, then default any
still-missing label to its 1-based sequential index. -/
def extractSourceNumbers (pages : List PageInfo) : List String :=
  let n := pages.length
  -- first pass: high-confidence detected numbers
  let firstPass := pages.foldl firstPassStep (List.replicate n "", fun _ => false)
  -- second pass: interpolation between known numbers
  let secondPass := (List.range n).foldl (interpolateStep n) firstPass
  -- final pass: sequential fallback for anything still empty
  (secondPass.1.enum.map fun p => if p.2 = "" then goSprintfD (p.1 + 1) else p.2)

/-- `validatePageNumbers`: the page-number validator.  Returns one
label per page: the extracted source numbers when they validate,
otherwise sequential "1".."N". -/
def validatePageNumbers (pages : List ParsedPage) : List String :=
  let detectedPages := detectedPagesOf pages
  let pageRangeInfo := pageRangeInfoOf pages
  if useSourceNumbers detectedPages pageRangeInfo then
    extractSourceNumbers detectedPages
  else
    (List.range pages.length).map fun i => goSprintfD (i + 1)

/-- A `ParsedPage` carrying only detected page-number information
(all other fields empty), for concrete test documents. -/
def pageWithNumber (num : String) (conf : ℚ) : ParsedPage :=
  ⟨ItemMetadata.empty, "", [], [], [], [], [], ⟨num, conf, "", ""⟩⟩

/-- A five-page document whose first two pages both carry the printed
label "iv" with high confidence, followed by numeric labels 1, 2, 3.
Coverage is 5/5, the numeric subsequence 1,2,3 is monotone, so the
validator adopts source labels — and emits "iv" twice. -/
def dupLabelPages : List ParsedPage :=
  [pageWithNumber "iv" (mkRat 9 10), pageWithNumber "iv" (mkRat 9 10),
   pageWithNumber "1" (mkRat 9 10), pageWithNumber "2" (mkRat 9 10),
   pageWithNumber "3" (mkRat 9 10)]

/-- A three-page document whose labels all have confidence 0:
coverage 0/3 < 60%, so the validator falls back to sequential
numbering. -/
def fallbackPages : List ParsedPage :=
  [pageWithNumber "" 0, pageWithNumber "" 0, pageWithNumber "" 0]

/-- A three-page document with confident labels "iv", "1", "2"
(coverage 3/3, numeric subsequence 1,2 monotone: adopt branch). -/
def adoptPages : List ParsedPage :=
  [pageWithNumber "iv" (mkRat 9 10), pageWithNumber "1" (mkRat 9 10),
   pageWithNumber "2" (mkRat 9 10)]

/-! ## Rate-limited calls (`internal/llm/ratelimit.go`)

`RateLimitedCall` wraps an API call with retry on rate-limit errors.
The call itself is abstracted as an oracle `fn : Nat → Except String T`
giving the outcome of each attempt (0-based); the model records the
final outcome, the number of attempts actually made, and the backoff
delays slept (in seconds), in order.  The token-bucket wait and
context cancellation are outside the embedding. -/

def maxRetries : Nat := 5
def baseRetryDelaySec : Nat := 1
def maxRetryDelaySec : Nat := 32

/-- Go's private `contains` helper on rune lists: a byte-window
substring check (case-sensitive despite its comment). -/
def goContainsList (s sub : List Char) : Bool :=
  match s with
  | [] => sub.isEmpty
  | _ :: t => sub.isPrefixOf s || goContainsList t sub

def goContains (s substr : String) : Bool :=
  goContainsList s.data substr.data

/-- `containsAny`: does `s` contain any of the given substrings? -/
def containsAny (s : String) (substrs : List String) : Bool :=
  substrs.any fun sub => goContains s sub

/-- `isRateLimitError`: the error text contains one of the four
rate-limit markers. -/
def isRateLimitError (e : String) : Bool :=
  containsAny e ["429", "rate limit", "rate_limit_exceeded", "Too Many Requests"]

/-- The backoff delay (in whole seconds) slept before retry number
`attempt`: min(base · 2^(attempt−1), cap). -/
def retryDelaySec (attempt : Nat) : Nat :=
  min (baseRetryDelaySec * 2 ^ (attempt - 1)) maxRetryDelaySec

/-- Outcome trace of `RateLimitedCall`. -/
structure RateLimitedResult (T : Type) where
  result : Except String T
  calls : Nat
  delays : List Nat
deriving Repr

/-- The retry loop of `RateLimitedCall`, structurally recursive on the
number of attempts still allowed.  `delaysAcc` accumulates slept
delays in reverse. -/
def rateLimitedCallAux {T : Type} (fn : Nat → Except String T) :
    Nat → Nat → List Nat → String → RateLimitedResult T
  | attempt, 0, delaysAcc, lastErr =>
    ⟨Except.error ("max retries (" ++ goSprintfD maxRetries ++ ") exceeded, last error: "
        ++ lastErr), attempt, delaysAcc.reverse⟩
  | attempt, remaining + 1, delaysAcc, _lastErr =>
    let delaysAcc' := if attempt > 0 then retryDelaySec attempt :: delaysAcc else delaysAcc
    match fn attempt with
    | Except.ok v => ⟨Except.ok v, attempt + 1, delaysAcc'.reverse⟩
    | Except.error e =>
      if isRateLimitError e then
        rateLimitedCallAux fn (attempt + 1) remaining delaysAcc' e
      else
        ⟨Except.error e, attempt + 1, delaysAcc'.reverse⟩

/-- `RateLimitedCall`: up to `maxRetries + 1` attempts (one initial
attempt plus `maxRetries` retries). -/
def RateLimitedCall {T : Type} (fn : Nat → Except String T) : RateLimitedResult T :=
  rateLimitedCallAux fn 0 (maxRetries + 1) [] ""

/-! ## Quotation extraction (`llm.ExtractQuotations`)

The three LLM interactions — per-page extraction, full-text
extraction, and the prioritization pass — are abstracted as oracles
giving each call's outcome; the control flow around them is the
embedding of `ExtractQuotations`.  `maxQuotations` is a Go `int`. -/

/-- The pagination test at the top of `ExtractQuotations`:
`len(parsedItem.PageNumbers) > 0 && parsedItem.PageNumbers[0] != ""`. -/
def isPaginated (parsedItem : ParsedItem) : Bool :=
  parsedItem.pageNumbers.length > 0 ∧ parsedItem.pageNumbers.headD "" ≠ ""

/-- `ExtractQuotations`: extract (per page or over the full text),
then, when the result exceeds a positive `maxQuotations`, run the
prioritization pass — whose failure is swallowed: the full
unprioritized list is returned with no error. -/
def ExtractQuotations (parsedItem : ParsedItem) (maxQuotations : Int)
    (pagesOracle fullTextOracle prioritizeOracle : Except String (List Quotation)) :
    Except String (List Quotation) :=
  match (if isPaginated parsedItem then pagesOracle else fullTextOracle) with
  | Except.error e => Except.error e
  | Except.ok quotations =>
    if maxQuotations > 0 ∧ (quotations.length : Int) > maxQuotations then
      match prioritizeOracle with
      | Except.error _ => Except.ok quotations
      | Except.ok prioritized => Except.ok prioritized
    else Except.ok quotations

/-! ## Summarize and quotations handlers
(`tools/document-summarize.go`, `tools/document-quotations.go`)

The per-document work of each handler after `GetOrParseDocument` has
produced a `ParsedItem`, with `llm.SummarizeItem` abstracted as an
oracle (`SummarizeItem` issues an LLM call unconditionally — it has no
cache check of its own).  The quotation-extraction call is abstracted
as an oracle taking the summary that the handler passes it as
context.  Each step returns its outcome together with the number of
`SummarizeItem` invocations it made. -/

/-- The summary branch of `DocumentSummarizeToolHandler` (lines
126–156): return the stored summary unchanged if non-empty, else
generate one (a single LLM call). -/
def documentSummarizeStep (parsedItem : ParsedItem)
    (summarizeOracle : Except String String) : Except String String × Nat :=
  if parsedItem.summary ≠ "" then (Except.ok parsedItem.summary, 0)
  else
    match summarizeOracle with
    | Except.error e => (Except.error ("failed to generate summary: " ++ e), 1)
    | Except.ok summary => (Except.ok summary, 1)

/-- The quotation branch of `DocumentQuotationsToolHandler` (lines
139–183): return stored quotations unchanged if non-empty; otherwise
call `llm.SummarizeItem` (unconditionally — the stored summary is
never consulted) and extract quotations with the fresh summary as
context. -/
def documentQuotationsStep (parsedItem : ParsedItem)
    (summarizeOracle : Except String String)
    (extractOracle : String → Except String (List Quotation)) :
    Except String (List Quotation) × Nat :=
  if parsedItem.quotations.length > 0 then
    (Except.ok parsedItem.quotations, 0)
  else
    match summarizeOracle with
    | Except.error e => (Except.error ("failed to generate summary: " ++ e), 1)
    | Except.ok summary =>
      match extractOracle summary with
      | Except.error e => (Except.error ("failed to extract quotations: " ++ e), 1)
      | Except.ok quotations => (Except.ok quotations, 1)

/-- A document whose stored summary is `"cached"` and whose stored
quotation set is empty. -/
def cachedSummaryItem : ParsedItem :=
  ⟨ItemMetadata.empty, ["page text"], ["1"], [], [], [], [], [], "cached", []⟩

/-! ## Citekey generation (package `citations`, `GenerateCitekey`)

String helpers mirror the Go standard library functions the package
uses; Unicode case mapping and letter/digit classification are
modelled on the ASCII subset (every input below is ASCII). -/

/-- An RE2 `\b` word character: `[0-9A-Za-z_]`. -/
def isWordChar (c : Char) : Bool :=
  c.isDigit || (97 ≤ c.toNat ∧ c.toNat ≤ 122) || (65 ≤ c.toNat ∧ c.toNat ≤ 90) || c = '_'

/-- Try to match `\b(19|20)\d{2}\b` at the current position (`prev` is
the character before it, if any). -/
def matchYearAt (prev : Option Char) (cs : List Char) : Option (List Char) :=
  match cs with
  | d1 :: d2 :: d3 :: d4 :: rest =>
    if (prev.all fun c => !isWordChar c)
        ∧ ((d1 = '1' ∧ d2 = '9') ∨ (d1 = '2' ∧ d2 = '0'))
        ∧ d3.isDigit ∧ d4.isDigit
        ∧ (rest.headD ' ' |> isWordChar) = false then
      some [d1, d2, d3, d4]
    else none
  | _ => none

/-- Leftmost match of the year regex, scanning left to right. -/
def findYear (prev : Option Char) : List Char → Option String
  | [] => none
  | c :: cs =>
    match matchYearAt prev (c :: cs) with
    | some ds => some (String.mk ds)
    | none => findYear (some c) cs

/-- `extractYear`: first `\b(19|20)\d{2}\b` match of the publication
date, else `""`. -/
def extractYear (pubDate : String) : String :=
  if pubDate = "" then "" else (findYear none pubDate.data).getD ""

/-- Split on every character satisfying `p` (like `strings.Split` for
a one-character separator, pieces may be empty). -/
def splitOnPred (p : Char → Bool) : List Char → List (List Char)
  | [] => [[]]
  | c :: rest =>
    match splitOnPred p rest with
    | [] => if p c then [[], []] else [[c]]
    | h :: t => if p c then [] :: h :: t else (c :: h) :: t

/-- `strings.TrimSpace`. -/
def goTrimSpace (cs : List Char) : List Char :=
  ((cs.dropWhile Char.isWhitespace).reverse.dropWhile Char.isWhitespace).reverse

/-- `strings.Fields`: whitespace-separated fields, no empties. -/
def goFields (cs : List Char) : List (List Char) :=
  (splitOnPred Char.isWhitespace cs).filter (· ≠ [])

/-- `strings.ToLower` / `strings.ToUpper` on the ASCII subset. -/
def goToLower (cs : List Char) : List Char := cs.map Char.toLower

def goToUpper (cs : List Char) : List Char := cs.map Char.toUpper

/-- `formatAuthorName`: extract and format the last name from an
author string ("Smith, John" → "smith", "John Smith" → "smith",
"von Neumann, John" → "vonNeumann"). -/
def formatAuthorName (author : String) : String :=
  if author = "" then ""
  else
    let lastName : List Char :=
      if goContains author "," then
        goTrimSpace ((splitOnPred (· = ',') author.data).headD [])
      else
        (goFields author.data).getLastD []
    if lastName.contains ' ' then
      match goFields lastName with
      | [] => String.mk []
      | p0 :: rest =>
        String.mk (goToLower p0 ++ rest.foldl
          (fun acc part =>
            match part with
            | [] => acc
            | c :: crest => acc ++ (goToUpper [c] ++ goToLower crest))
          [])
    else String.mk (goToLower lastName)

/-- `extractAuthorPart`: no authors → ""; one author → last name; two
→ both last names with the second capitalized; three or more → first
last name + "EtAl". -/
def extractAuthorPart (authors : List String) : String :=
  match authors with
  | [] => ""
  | [a] => formatAuthorName a
  | [a, b] =>
    let first := formatAuthorName a
    let second := formatAuthorName b
    let second := match second.data with
      | [] => second
      | c :: rest => String.mk (goToUpper [c] ++ rest)
    first ++ second
  | a :: _ => formatAuthorName a ++ "EtAl"

/-- `sanitizeCitekey`: keep letters, digits and underscores; an empty
result becomes "unknown"; a leading digit gets a "ref" prefix. -/
def sanitizeCitekey (citekey : String) : String :=
  let sanitized := citekey.data.filter fun r => r.isAlpha || r.isDigit || r = '_'
  if sanitized = [] then "unknown"
  else if (sanitized.headD ' ').isDigit then "ref" ++ String.mk sanitized
  else String.mk sanitized

/-- The candidate `base + "z" + string(rune('0' + k))` built by the
numeric-suffix loop. -/
def numericCandidate (base : String) (k : Nat) : String :=
  base ++ "z" ++ String.mk [Char.ofNat (48 + k)]

/-- The numeric-suffix inner loop: try `base ++ "z" ++ char('0'+k)`
for k = 1, 2, … and return the first free candidate.  `fuel` bounds
the search; `GenerateCitekey` passes `existing.length + 1`, which by
pigeonhole always suffices (the Go loop is unbounded and would not
terminate on a set containing every candidate, which a finite set
cannot be). -/
def numericSuffixSearch (existing : List String) (base : String) :
    Nat → Nat → String
  | 0, numSuffix => numericCandidate base numSuffix
  | fuel + 1, numSuffix =>
    if existing.contains (numericCandidate base numSuffix) then
      numericSuffixSearch existing base fuel (numSuffix + 1)
    else numericCandidate base numSuffix

/-- The letter-suffix collision loop.  `suffix` is the rune code
(starting at 'a' = 97).  When the suffix passes 'z' the loop switches
to the numeric search and breaks — note that the candidate
`base ++ "z"` it just built is overwritten without ever being checked
against the existing set. -/
def citekeySuffixLoop (existing : List String) (base : String) (numericFuel : Nat) :
    String → Nat → Nat → String
  | citekey, _, 0 => citekey
  | citekey, suffix, fuel + 1 =>
    if existing.contains citekey then
      let citekey' := base ++ String.mk [Char.ofNat suffix]
      if suffix + 1 > 122 then numericSuffixSearch existing base numericFuel 1
      else citekeySuffixLoop existing base numericFuel citekey' (suffix + 1) fuel
    else citekey

/-- The base citekey before collision handling: author part + year,
"unknown" when empty, sanitized. -/
def citekeyBase (metadata : ItemMetadata) : String :=
  let year := extractYear metadata.publicationDate
  let authorPart := extractAuthorPart metadata.authors
  let baseCitekey := authorPart ++ year
  let baseCitekey := if baseCitekey = "" then "unknown" else baseCitekey
  sanitizeCitekey baseCitekey

/-- `GenerateCitekey`: pandoc-style citekey with collision handling. -/
def GenerateCitekey (metadata : ItemMetadata) (existingCitekeys : List String) : String :=
  let baseCitekey := citekeyBase metadata
  citekeySuffixLoop existingCitekeys baseCitekey (existingCitekeys.length + 1)
    baseCitekey 97 27

/-- The existing set {"unknown", "unknowna", …, "unknowny"}: the base
and all letter-suffix candidates the loop actually checks. -/
def lettersExhausted : List String :=
  "unknown" :: (List.range 25).map fun i => "unknown" ++ String.mk [Char.ofNat (97 + i)]

/-! ## Document identity (`internal/storage/storage.go`,
`GenerateDocumentID`)

`crypto/sha256` is embedded as an executable SHA-256 over byte lists
(FIPS 180-4), with bytes as `Nat` values below 256 and 32-bit words as
`Nat` values reduced mod 2^32. -/

def add32 (a b : Nat) : Nat := (a + b) % 4294967296

def rotr32 (x k : Nat) : Nat := x / 2 ^ k + x % 2 ^ k * 2 ^ (32 - k)

def not32 (x : Nat) : Nat := 4294967295 - x

def shaCh (e f g : Nat) : Nat := (e &&& f) ^^^ (not32 e &&& g)

def shaMaj (a b c : Nat) : Nat := (a &&& b) ^^^ (a &&& c) ^^^ (b &&& c)

def bigSigma0 (a : Nat) : Nat := rotr32 a 2 ^^^ rotr32 a 13 ^^^ rotr32 a 22

def bigSigma1 (e : Nat) : Nat := rotr32 e 6 ^^^ rotr32 e 11 ^^^ rotr32 e 25

def smallSigma0 (x : Nat) : Nat := rotr32 x 7 ^^^ rotr32 x 18 ^^^ x / 2 ^ 3

def smallSigma1 (x : Nat) : Nat := rotr32 x 17 ^^^ rotr32 x 19 ^^^ x / 2 ^ 10

/-- The SHA-256 round constants. -/
def shaK : List Nat :=
  [1116352408, 1899447441, 3049323471, 3921009573, 961987163, 1508970993,
   2453635748, 2870763221, 3624381080, 310598401, 607225278, 1426881987,
   1925078388, 2162078206, 2614888103, 3248222580, 3835390401, 4022224774,
   264347078, 604807628, 770255983, 1249150122, 1555081692, 1996064986,
   2554220882, 2821834349, 2952996808, 3210313671, 3336571891, 3584528711,
   113926993, 338241895, 666307205, 773529912, 1294757372, 1396182291,
   1695183700, 1986661051, 2177026350, 2456956037, 2730485921, 2820302411,
   3259730800, 3345764771, 3516065817, 3600352804, 4094571909, 275423344,
   430227734, 506948616, 659060556, 883997877, 958139571, 1322822218,
   1537002063, 1747873779, 1955562222, 2024104815, 2227730452, 2361852424,
   2428436474, 2756734187, 3204031479, 3329325298]

/-- The SHA-256 initial hash value. -/
def shaH0 : List Nat :=
  [1779033703, 3144134277, 1013904242, 2773480762,
   1359893119, 2600822924, 528734635, 1541459225]

/-- `n` bytes of `x`, most significant first. -/
def bigEndianBytes (n x : Nat) : List Nat :=
  (List.range n).map fun i => x / 2 ^ (8 * (n - 1 - i)) % 256

/-- Merkle–Damgård padding: 0x80, zeros to 56 mod 64, 8-byte bit length. -/
def sha256Pad (msg : List Nat) : List Nat :=
  msg ++ [0x80] ++ List.replicate ((119 - msg.length % 64) % 64) 0
    ++ bigEndianBytes 8 (msg.length * 8)

/-- Split into 64-byte blocks (fuel-structural). -/
def chunk64 : Nat → List Nat → List (List Nat)
  | 0, _ => []
  | _ + 1, [] => []
  | fuel + 1, l => l.take 64 :: chunk64 fuel (l.drop 64)

/-- The first 16 words of the message schedule, big-endian. -/
def initialWords (block : List Nat) : List Nat :=
  (List.range 16).map fun i =>
    block.getD (4 * i) 0 * 16777216 + block.getD (4 * i + 1) 0 * 65536
      + block.getD (4 * i + 2) 0 * 256 + block.getD (4 * i + 3) 0

/-- Extend the message schedule by one word `fuel` times (48 for
SHA-256). -/
def extendW : Nat → List Nat → List Nat
  | 0, w => w
  | f + 1, w =>
    let t := w.length
    extendW f (w ++ [add32 (add32 (smallSigma1 (w.getD (t - 2) 0)) (w.getD (t - 7) 0))
      (add32 (smallSigma0 (w.getD (t - 15) 0)) (w.getD (t - 16) 0))])

/-- One compression round: state is the eight working variables. -/
def shaRound (st : List Nat) (kw : Nat × Nat) : List Nat :=
  let a := st.getD 0 0
  let b := st.getD 1 0
  let c := st.getD 2 0
  let d := st.getD 3 0
  let e := st.getD 4 0
  let f := st.getD 5 0
  let g := st.getD 6 0
  let h := st.getD 7 0
  let t1 := add32 h (add32 (bigSigma1 e) (add32 (shaCh e f g) (add32 kw.1 kw.2)))
  let t2 := add32 (bigSigma0 a) (shaMaj a b c)
  [add32 t1 t2, a, b, c, add32 d t1, e, f, g]

/-- Process one 512-bit block. -/
def processBlock (hs block : List Nat) : List Nat :=
  let w := extendW 48 (initialWords block)
  let st := (shaK.zip w).foldl shaRound hs
  List.zipWith add32 hs st

/-- SHA-256 digest (32 bytes) of a byte list. -/
def sha256 (msg : List Nat) : List Nat :=
  let padded := sha256Pad msg
  let hs := (chunk64 padded.length padded).foldl processBlock shaH0
  (hs.map (bigEndianBytes 4)).flatten

/-- A lowercase hexadecimal digit. -/
def hexDigit (n : Nat) : Char :=
  if n < 10 then Char.ofNat (48 + n) else Char.ofNat (87 + n)

/-- Lowercase hex of a byte list (Go's `%x` verb). -/
def bytesToHex (bs : List Nat) : String :=
  String.mk ((bs.map fun b => [hexDigit (b / 16), hexDigit (b % 16)]).flatten)

/-- UTF-8 encoding of one character, as byte values. -/
def utf8EncodeCharNat (c : Char) : List Nat :=
  let n := c.toNat
  if n < 0x80 then [n]
  else if n < 0x800 then [0xC0 + n / 64, 0x80 + n % 64]
  else if n < 0x10000 then [0xE0 + n / 4096, 0x80 + n / 64 % 64, 0x80 + n % 64]
  else [0xF0 + n / 262144, 0x80 + n / 4096 % 64, 0x80 + n / 64 % 64, 0x80 + n % 64]

/-- `[]byte(s)`: the UTF-8 bytes of a Go string. -/
def utf8Bytes (s : String) : List Nat :=
  (s.data.map utf8EncodeCharNat).flatten

/-- `GenerateDocumentID`: deterministic document identity.
Priority: Zotero ID > URL hash > document data hash.  Note the literal
prefix for a reference-manager source is `"zotero_"`. -/
def GenerateDocumentID (sourceInfo : SourceInfo) (documentData : DocumentData) : String :=
  if sourceInfo.zoteroID ≠ "" then "zotero_" ++ sourceInfo.zoteroID
  else if sourceInfo.url ≠ "" then
    "url_" ++ bytesToHex ((sha256 (utf8Bytes sourceInfo.url)).take 8)
  else "data_" ++ bytesToHex ((sha256 documentData.data).take 8)

/-! ## The document store (`internal/storage/sqlite.go`)

The SQLite layout is embedded as explicit state: one `DocState` per
document id holds the `documents` row and the six child tables, each
child table an integer-keyed row set (`INSERT OR REPLACE` is a keyed
upsert; `SELECT … ORDER BY <key>` reads back in key order).  All
statements succeed in the model, so a `StoreParsedItem` transaction
always commits.  The authors column stores JSON of a `[]string`, whose
marshal/unmarshal round-trip is the identity; it is modelled as the
list itself. -/

/-- One row of the `documents` table. -/
structure DocumentRow where
  title : String
  authors : List String
  publicationDate : String
  publication : String
  doi : String
  abstract : String
  zoteroID : String
  url : String
deriving Repr, DecidableEq

/-- One row of the `pages` table (minus its keys). -/
structure PageRow where
  sourcePageNumber : String
  content : String
deriving Repr, DecidableEq

/-- The rows of one document id across the seven tables.  Child
tables are keyed by `page_number` (1-based) or the respective 0-based
index column. -/
structure DocState where
  root : Option DocumentRow
  pages : List (Nat × PageRow)
  references : List (Nat × Reference)
  images : List (Nat × Image)
  tables : List (Nat × Table)
  footnotes : List (Nat × Footnote)
  endnotes : List (Nat × Endnote)
deriving Repr, DecidableEq

def DocState.empty : DocState := ⟨none, [], [], [], [], [], []⟩

/-- The whole database, per document id. -/
def DB : Type := String → DocState

def emptyDB : DB := fun _ => DocState.empty

/-- `INSERT OR REPLACE` on a keyed table. -/
def upsertRow {α : Type} (k : Nat) (v : α) (t : List (Nat × α)) : List (Nat × α) :=
  t.filter (fun p => p.1 ≠ k) ++ [(k, v)]

def lookupRow {α : Type} (t : List (Nat × α)) (k : Nat) : Option α :=
  (t.find? fun p => p.1 = k).map Prod.snd

def maxKey {α : Type} (t : List (Nat × α)) : Nat :=
  t.foldl (fun m p => max m p.1) 0

/-- `SELECT … ORDER BY key`: the rows in ascending key order. -/
def selectOrdered {α : Type} (t : List (Nat × α)) : List α :=
  (List.range (maxKey t + 1)).filterMap (lookupRow t)

/-- `SELECT key, … ORDER BY key`: keyed rows in ascending key order. -/
def selectOrderedKV {α : Type} (t : List (Nat × α)) : List (Nat × α) :=
  (List.range (maxKey t + 1)).filterMap fun k => (lookupRow t k).map ((k, ·))

/-- Insert a run of rows with consecutive keys starting at `offset`
(the per-child insert loops of `StoreParsedItem`). -/
def storeRows {α : Type} : Nat → List α → List (Nat × α) → List (Nat × α)
  | _, [], t => t
  | offset, v :: vs, t => storeRows (offset + 1) vs (upsertRow offset v t)

/-- The `source_page_number` actually stored for page `i` (0-based):
the supplied label when present and non-empty, else the sequential
default. -/
def storedPageLabel (item : ParsedItem) (i : Nat) : String :=
  if i < item.pageNumbers.length ∧ item.pageNumbers.getD i "" ≠ "" then
    item.pageNumbers.getD i ""
  else goSprintfD (i + 1)

/-- The `pages` rows written by the page loop of `StoreParsedItem`. -/
def pageRowsOf (item : ParsedItem) : List PageRow :=
  item.pages.enum.map fun p => PageRow.mk (storedPageLabel item p.1) p.2

/-- `StoreParsedItem`: upsert the root row and all child rows of
`docID` in one transaction.  (Child rows of the id that lie beyond the
new key ranges are not deleted — `INSERT OR REPLACE` only overwrites
matching keys.)  The `summary` and `quotations` fields are not
persisted by this store revision. -/
def StoreParsedItem (docID : String) (item : ParsedItem) (sourceInfo : SourceInfo)
    (db : DB) : DB :=
  fun id =>
    if id = docID then
      let ds := db docID
      { root := some ⟨item.metadata.title, item.metadata.authors,
          item.metadata.publicationDate, item.metadata.publication,
          item.metadata.doi, item.metadata.abstract,
          sourceInfo.zoteroID, sourceInfo.url⟩
        pages := storeRows 1 (pageRowsOf item) ds.pages
        references := storeRows 0 item.references ds.references
        images := storeRows 0 item.images ds.images
        tables := storeRows 0 item.tables ds.tables
        footnotes := storeRows 0 item.footnotes ds.footnotes
        endnotes := storeRows 0 item.endnotes ds.endnotes }
    else db id

/-- `DocumentExists`. -/
def DocumentExists (db : DB) (docID : String) : Bool :=
  (db docID).root.isSome

/-- `GetMetadata`: scans the six `documents` columns into a fresh
`models.ItemMetadata`, so the ten unpersisted fields come back at
their zero values. -/
def GetMetadata (db : DB) (docID : String) : Except String ItemMetadata :=
  match (db docID).root with
  | none => Except.error ("document not found: " ++ docID)
  | some r => Except.ok ⟨r.title, r.authors, r.publicationDate, r.publication,
      r.doi, r.abstract, "", "", "", "", "", "", "", "", "", ""⟩

/-- The metadata the store can return for a stored `m`: the six
persisted columns survive, the other ten fields are zeroed.  This is
exactly what `GetMetadata` reconstructs. -/
def persistedMetadata (m : ItemMetadata) : ItemMetadata :=
  ⟨m.title, m.authors, m.publicationDate, m.publication, m.doi, m.abstract,
   "", "", "", "", "", "", "", "", "", ""⟩

/-- `GetPages`: page contents in sequential order. -/
def GetPages (db : DB) (docID : String) : List String :=
  (selectOrdered (db docID).pages).map PageRow.content

/-- `GetPageMapping`: source label → sequential number, built by
iterating `ORDER BY page_number`; a later row with the same label
overwrites an earlier one. -/
def insertOverwrite (k : String) (v : Nat) (m : List (String × Nat)) :
    List (String × Nat) :=
  m.filter (fun p => p.1 ≠ k) ++ [(k, v)]

def GetPageMapping (db : DB) (docID : String) : List (String × Nat) :=
  (selectOrderedKV (db docID).pages).foldl
    (fun m p => insertOverwrite p.2.sourcePageNumber p.1 m) []

/-- `GetPageBySourceNumber`: the content of a page row whose
`source_page_number` equals the argument (the first such row). -/
def GetPageBySourceNumber (db : DB) (docID : String) (sourcePageNum : String) :
    Except String String :=
  match (selectOrderedKV (db docID).pages).find?
      (fun p => p.2.sourcePageNumber = sourcePageNum) with
  | some p => Except.ok p.2.content
  | none => Except.error ("page not found: " ++ docID ++ " source page " ++ sourcePageNum)

/-- The `PageNumbers` reconstruction loop of `GetParsedItem`: place
each mapping entry's label at position seq−1. -/
def rebuildPageNumbers (n : Nat) (mapping : List (String × Nat)) : List String :=
  mapping.foldl
    (fun arr p => if 0 < p.2 ∧ p.2 ≤ arr.length then arr.set (p.2 - 1) p.1 else arr)
    (List.replicate n "")

/-- `GetParsedItem`: reassemble the document from the store.  The
`summary` and `quotations` fields come back at their zero values
(this store revision does not persist them). -/
def GetParsedItem (db : DB) (docID : String) : Except String ParsedItem :=
  match GetMetadata db docID with
  | Except.error e => Except.error ("failed to get metadata: " ++ e)
  | Except.ok metadata =>
    let pages := GetPages db docID
    let pageNumbers := rebuildPageNumbers pages.length (GetPageMapping db docID)
    Except.ok ⟨metadata, pages, pageNumbers,
      selectOrdered (db docID).references,
      selectOrdered (db docID).images,
      selectOrdered (db docID).tables,
      selectOrdered (db docID).footnotes,
      selectOrdered (db docID).endnotes, "", []⟩

/-! ## Metadata merging (`internal/documents/metadata.go`)

`MergeMetadata` as called from `GetOrParseDocument`, where both
arguments are non-nil: external wins fieldwise for the six shared
fields (falling back to the extracted value when the external field is
empty); `ItemType`, `Publisher`, `Volume`, `Issue`, `Pages`, `ISSN`,
`ISBN` and `URL` are taken from external only; the result's source tag
is "merged" and its citekey stays at the zero value. -/

def MergeMetadata (external extracted : ItemMetadata) : ItemMetadata :=
  { title := if external.title ≠ "" then external.title else extracted.title
    authors := if external.authors.length > 0 then external.authors
      else extracted.authors
    publicationDate := if external.publicationDate ≠ "" then
      external.publicationDate else extracted.publicationDate
    publication := if external.publication ≠ "" then external.publication
      else extracted.publication
    doi := if external.doi ≠ "" then external.doi else extracted.doi
    abstract := if external.abstract ≠ "" then external.abstract
      else extracted.abstract
    itemType := external.itemType
    publisher := external.publisher
    volume := external.volume
    issue := external.issue
    pages := external.pages
    issn := external.issn
    isbn := external.isbn
    url := external.url
    citekey := ""
    metadataSource := "merged" }

/-! ## `GetOrParseDocument` (`internal/operations/operations.go`)

The store is the explicit `DB`; network and LLM effects are oracles:
`detectType` stands for `documents.DetectDocumentType`, `fetchResult`
for `documents.GetDataWithMetadata`, `parse` for `llm.ParseDocument`,
and `apiKeySet` for `os.Getenv("OPENAI_API_KEY") != ""`.  Logging is
dropped.  The store of the model never fails, so the
`DocumentExists`/`StoreParsedItem` error returns are dead.  The result
carries the updated database and whether the parser was invoked. -/

/-- The `else if parsedItem.Metadata.MetadataSource == ""` branch of
`GetOrParseDocument` (operations.go): a freshly parsed item with no
external metadata is tagged "extracted" unless already tagged. -/
def markExtracted (item : ParsedItem) : ParsedItem :=
  if item.metadata.metadataSource = "" then
    { item with metadata := { item.metadata with metadataSource := "extracted" } }
  else item

def getOrParseStep (db : DB) (apiKeySet : Bool)
    (parse : DocumentData → Except String ParsedItem)
    (sourceInfo : SourceInfo) (data : DocumentData)
    (externalMetadata : Option ItemMetadata) :
    Except String (String × ParsedItem) × DB × Bool :=
  let docID := GenerateDocumentID sourceInfo data
  if DocumentExists db docID then
    match GetParsedItem db docID with
    | Except.error e =>
      (Except.error ("failed to retrieve existing document: " ++ e), db, false)
    | Except.ok item => (Except.ok (docID, item), db, false)
  else
    if apiKeySet = false then
      (Except.error "OPENAI_API_KEY environment variable not set", db, false)
    else
      match parse data with
      | Except.error e => (Except.error ("failed to parse document: " ++ e), db, true)
      | Except.ok parsed =>
        let item := match externalMetadata with
          | some m => { parsed with metadata := MergeMetadata m parsed.metadata }
          | none => markExtracted parsed
        (Except.ok (docID, item), StoreParsedItem docID item sourceInfo db, true)

/-- The `DocumentData` assembled on the raw-data path. -/
def rawDocData (bytes : List Nat) (docType : String)
    (detectType : List Nat → String) : DocumentData :=
  ⟨bytes, if docType = "" then detectType bytes else docType⟩

def GetOrParseDocument (zoteroID url : String) (rawData : Option (List Nat))
    (docType : String) (detectType : List Nat → String)
    (fetchResult : Except String (DocumentData × Option ItemMetadata))
    (apiKeySet : Bool) (parse : DocumentData → Except String ParsedItem)
    (db : DB) : Except String (String × ParsedItem) × DB × Bool :=
  let sourceInfo : SourceInfo := ⟨zoteroID, url⟩
  match rawData with
  | some bytes =>
    getOrParseStep db apiKeySet parse sourceInfo
      (rawDocData bytes docType detectType) none
  | none =>
    match fetchResult with
    | Except.error e =>
      (Except.error ("failed to fetch document data: " ++ e), db, false)
    | Except.ok (data0, externalMetadata) =>
      let data := if docType ≠ "" then { data0 with type := docType } else data0
      getOrParseStep db apiKeySet parse sourceInfo data externalMetadata

/-! ## PDF resources (`resources/pdf-resources.go`)

`ReadResource` routing.  `strconv.Atoi` accepts an optional sign
followed by one or more digits and must consume the whole string.
JSON payloads other than the single-page one are abstracted behind the
`otherResource` parameter (the routing and the `pages` branch are what
is under test here); the single-page payload mirrors
`json.MarshalIndent` of the two-key map (keys in alphabetical order;
string escaping inside the JSON is not modelled). -/

def goDigitsVal : List Char → Nat → Option Nat
  | [], acc => some acc
  | c :: cs, acc =>
    if c.isDigit then goDigitsVal cs (acc * 10 + (c.toNat - 48)) else none

/-- `strconv.Atoi` (`none` is the error case; int-size overflow is not
modelled, no input considered here gets near it). -/
def goAtoi (s : String) : Option Int :=
  match s.data with
  | [] => none
  | '+' :: cs => if cs = [] then none else (goDigitsVal cs 0).map Int.ofNat
  | '-' :: cs => if cs = [] then none else (goDigitsVal cs 0).map (fun n => -(n : Int))
  | cs => (goDigitsVal cs 0).map Int.ofNat

/-- `strings.HasPrefix` on character lists. -/
def listStartsWith : List Char → List Char → Bool
  | [], _ => true
  | _ :: _, [] => false
  | p :: ps, c :: cs => p = c && listStartsWith ps cs

/-- `json.MarshalIndent` of `{"source_page_number": …, "content": …}`
(keys emitted in alphabetical order). -/
def pageIdentifierJson (label content : String) : String :=
  "\x7b\n  \"content\": \"" ++ content ++ "\",\n  \"source_page_number\": \"" ++
    label ++ "\"\n\x7d"

def getPageByIdentifier (db : DB) (docID pageIdentifier : String) :
    Except String String :=
  match GetPageBySourceNumber db docID pageIdentifier with
  | Except.error e => Except.error e
  | Except.ok content => Except.ok (pageIdentifierJson pageIdentifier content)

/-- `getAllPages`: the JSON page list is abstracted as the `Repr`
rendering of the underlying data. -/
def getAllPages (db : DB) (docID : String) : Except String String :=
  Except.ok (reprStr (GetPages db docID, GetPageMapping db docID))

/-- The `switch resourceType` of `ReadResource`.  Branches other than
`pages` (summary, metadata, references, …, and the unknown-type error)
are the supplied `otherResource`. -/
def readResourceSwitch (db : DB)
    (otherResource : String → String → Int → Except String String)
    (docID resourceType : String) (third : Option String) (index : Int) :
    Except String String :=
  match resourceType with
  | "pages" =>
    match third with
    | some pageIdentifier => getPageByIdentifier db docID pageIdentifier
    | none => getAllPages db docID
  | _ => otherResource docID resourceType index

/-- `ReadResource`: scheme check, path split, and — before the switch —
the `strconv.Atoi` guard on the third path segment, which rejects the
URI whenever that segment is not an integer. -/
def ReadResource (db : DB)
    (otherResource : String → String → Int → Except String String)
    (uri : String) : Except String String :=
  if listStartsWith "pdf://".data uri.data then
    let parts := splitOnPred (· = '/') (uri.data.drop 6)
    if parts.length = 0 then Except.error "invalid URI, missing document ID"
    else
      let docID := String.mk (parts.getD 0 [])
      let resourceType := if 1 < parts.length then String.mk (parts.getD 1 []) else ""
      if 2 < parts.length then
        let third := String.mk (parts.getD 2 [])
        match goAtoi third with
        | none => Except.error ("invalid index: " ++ third)
        | some index =>
          readResourceSwitch db otherResource docID resourceType (some third) index
      else readResourceSwitch db otherResource docID resourceType none (-1)
  else Except.error "invalid URI scheme, expected pdf://"

/-! ## Concrete instances for the store and resource claims -/

/-- A document whose first page carries the roman display label "iv". -/
def romanItem : ParsedItem :=
  ⟨{ ItemMetadata.empty with
      title := "T", authors := ["A"], publicationDate := "2001" },
   ["front matter", "body"], ["iv", "2"], [], [], [], [], [], "", []⟩

/-- `romanItem` with non-empty unpersisted metadata fields (a source
tag and a citekey), as every pipeline-produced item has. -/
def taggedItem : ParsedItem :=
  { romanItem with metadata :=
      { romanItem.metadata with metadataSource := "extracted", citekey := "t2001" } }

def romanDB : DB := StoreParsedItem "doc1" romanItem ⟨"", ""⟩ emptyDB

/-- A document whose two pages carry the same display label "x". -/
def dupLabelItem : ParsedItem :=
  ⟨{ ItemMetadata.empty with title := "T" }, ["pa", "pb"], ["x", "x"],
   [], [], [], [], [], "", []⟩

/-! # Theorems -/

theorem natDigitsRevFuel_eq (fuel : Nat) :
    ∀ n : Nat, n ≤ fuel → natDigitsRevFuel fuel n = Nat.digits 10 n := by
  induction fuel with
  | zero =>
    intro n hn
    have : n = 0 := by omega
    subst this
    simp [natDigitsRevFuel]
  | succ f ih =>
    intro n hn
    by_cases h0 : n = 0
    · subst h0
      simp [natDigitsRevFuel]
    · rw [natDigitsRevFuel, if_neg h0]
      have hdiv : n / 10 ≤ f := by
        have := Nat.div_lt_self (Nat.pos_of_ne_zero h0) (by norm_num : 1 < 10)
        omega
      rw [ih (n / 10) hdiv]
      exact (Nat.digits_def' (by norm_num : 1 < 10) (Nat.pos_of_ne_zero h0)).symm

theorem goSprintfD_eq_digits (n : Nat) :
    goSprintfD n =
      if n = 0 then "0" else String.mk ((Nat.digits 10 n).map Nat.digitChar).reverse := by
  unfold goSprintfD
  rw [natDigitsRevFuel_eq n n (Nat.le_refl n)]

theorem digitChar_inj_lt10 :
    ∀ a < 10, ∀ b < 10, Nat.digitChar a = Nat.digitChar b → a = b := by
  decide

theorem map_digitChar_inj (l₁ l₂ : List Nat) (h₁ : ∀ x ∈ l₁, x < 10)
    (h₂ : ∀ x ∈ l₂, x < 10) (h : l₁.map Nat.digitChar = l₂.map Nat.digitChar) :
    l₁ = l₂ := by
  induction l₁ generalizing l₂ with
  | nil => cases l₂ <;> simp_all
  | cons a t ih =>
    cases l₂ with
    | nil => simp_all
    | cons b t₂ =>
      simp only [List.map_cons, List.cons.injEq] at h
      have ha : a < 10 := h₁ a (List.mem_cons_self a t)
      have hb : b < 10 := h₂ b (List.mem_cons_self b t₂)
      have hab := digitChar_inj_lt10 a ha b hb h.1
      have ht := ih t₂ (fun x hx => h₁ x (List.mem_cons_of_mem a hx))
        (fun x hx => h₂ x (List.mem_cons_of_mem b hx)) h.2
      rw [hab, ht]

theorem goSprintfD_injective : Function.Injective goSprintfD := by
  intro m n h
  rw [goSprintfD_eq_digits, goSprintfD_eq_digits] at h
  have digitsLt : ∀ k : Nat, ∀ x ∈ Nat.digits 10 k, x < 10 := by
    intro k x hx
    exact Nat.digits_lt_base (by norm_num) hx
  split at h <;> split at h
  · omega
  · exfalso
    rename_i hm hn
    have : ['0'] = ((Nat.digits 10 n).map Nat.digitChar).reverse := by
      have := congrArg String.data h
      simpa using this
    have hrev : (Nat.digits 10 n).map Nat.digitChar = ['0'] := by
      have := congrArg List.reverse this
      simpa using this.symm
    have hd : Nat.digits 10 n = [0] :=
      map_digitChar_inj (Nat.digits 10 n) [0] (digitsLt n)
        (by simp) (by simpa using hrev)
    have h2 := Nat.ofDigits_digits 10 n
    rw [hd] at h2
    norm_num [Nat.ofDigits] at h2
    omega
  · exfalso
    rename_i hm hn
    have : ((Nat.digits 10 m).map Nat.digitChar).reverse = ['0'] := by
      have := congrArg String.data h
      simpa using this
    have hrev : (Nat.digits 10 m).map Nat.digitChar = ['0'] := by
      have := congrArg List.reverse this
      simpa using this
    have hd : Nat.digits 10 m = [0] :=
      map_digitChar_inj (Nat.digits 10 m) [0] (digitsLt m) (by simp)
        (by simpa using hrev)
    have h2 := Nat.ofDigits_digits 10 m
    rw [hd] at h2
    norm_num [Nat.ofDigits] at h2
    omega
  · have hdata : ((Nat.digits 10 m).map Nat.digitChar).reverse
        = ((Nat.digits 10 n).map Nat.digitChar).reverse := by
      have := congrArg String.data h
      simpa using this
    have hmap := congrArg List.reverse hdata
    simp only [List.reverse_reverse] at hmap
    have hdig := map_digitChar_inj _ _ (digitsLt m) (digitsLt n) hmap
    calc m = Nat.ofDigits 10 (Nat.digits 10 m) := (Nat.ofDigits_digits 10 m).symm
    _ = Nat.ofDigits 10 (Nat.digits 10 n) := by rw [hdig]
    _ = n := Nat.ofDigits_digits 10 n

/-! ### Properties of the page-number validator -/

theorem firstPass_length (pi : List PageInfo) (st : List String × (Nat → Bool)) :
    (pi.foldl firstPassStep st).1.length = st.1.length := by
  induction pi generalizing st with
  | nil => rfl
  | cons p t ih =>
    simp only [List.foldl_cons]
    rw [ih]
    unfold firstPassStep
    split <;> simp

theorem firstPass_spec (pages : List ParsedPage) :
    ∀ (k : Nat) (st : List String × (Nat → Bool)),
      st.1.length = k + pages.length →
      (∀ i, i < k → ((((pages.enumFrom k).map detF).foldl firstPassStep st).1[i]? = st.1[i]? ∧
          (((pages.enumFrom k).map detF).foldl firstPassStep st).2 i = st.2 i)) ∧
      (∀ j, (h : j < pages.length) →
        isConfident (detF (k + j, pages.get ⟨j, h⟩)) = true →
          ((((pages.enumFrom k).map detF).foldl firstPassStep st).1[k + j]?
              = some (pages.get ⟨j, h⟩).pageNumberInfo.pageNumber ∧
            (((pages.enumFrom k).map detF).foldl firstPassStep st).2 (k + j) = true)) := by
  induction pages with
  | nil =>
    intro k st _
    refine ⟨fun i _ => ⟨rfl, rfl⟩, fun j h => absurd h (by simp)⟩
  | cons p t ih =>
    intro k st hlen
    have hlen1 : st.1.length = k + 1 + t.length := by
      simp only [List.length_cons] at hlen; omega
    simp only [List.enumFrom, List.map_cons, List.foldl_cons]
    set st' := firstPassStep st (detF (k, p)) with hst'
    have hlen' : st'.1.length = (k + 1) + t.length := by
      rw [hst']
      unfold firstPassStep
      split
      · simpa using hlen1
      · exact hlen1
    have IH := ih (k + 1) st' hlen'
    constructor
    · intro i hi
      have h1 := IH.1 i (by omega)
      have hsv : st'.1[i]? = st.1[i]? := by
        rw [hst']
        unfold firstPassStep
        split
        · exact List.getElem?_set_ne (show (detF (k, p)).index ≠ i by
            simp only [detF]; omega)
        · rfl
      have hsb : st'.2 i = st.2 i := by
        rw [hst']
        unfold firstPassStep
        split
        · simp only [detF]
          rw [if_neg (by omega)]
        · rfl
      exact ⟨h1.1.trans hsv, h1.2.trans hsb⟩
    · intro j h hconf
      cases j with
      | zero =>
        simp only [Nat.add_zero] at hconf ⊢
        have hget0 : (p :: t).get ⟨0, h⟩ = p := rfl
        rw [hget0] at hconf ⊢
        have h1 := IH.1 k (by omega)
        have hsv : st'.1[k]? = some p.pageNumberInfo.pageNumber := by
          rw [hst']
          unfold firstPassStep
          rw [if_pos hconf]
          have hidx : (detF (k, p)).index = k := rfl
          have hnum : (detF (k, p)).number = p.pageNumberInfo.pageNumber := rfl
          rw [hidx, hnum]
          exact List.getElem?_set_self (by omega)
        have hsb : st'.2 k = true := by
          rw [hst']
          unfold firstPassStep
          rw [if_pos hconf]
          simp [detF]
        exact ⟨h1.1.trans hsv, h1.2.trans hsb⟩
      | succ j' =>
        have hget : (p :: t).get ⟨j' + 1, h⟩ = t.get ⟨j', by simpa using h⟩ := rfl
        rw [hget] at hconf ⊢
        have hidx : k + (j' + 1) = (k + 1) + j' := by omega
        rw [hidx] at hconf ⊢
        exact IH.2 j' (by simpa using h) hconf

theorem interpolateStep_length (n : Nat) (st : List String × (Nat → Bool)) (x : Nat) :
    (interpolateStep n st x).1.length = st.1.length := by
  obtain ⟨result, numbered⟩ := st
  unfold interpolateStep
  dsimp only
  by_cases hx : numbered x = true
  · rw [if_pos hx]
  · rw [if_neg hx]
    cases hfp : findPrevIdx numbered x with
    | none => cases findNextIdx numbered n (x + 1) <;> rfl
    | some p =>
      cases hfn : findNextIdx numbered n (x + 1) with
      | none => rfl
      | some q =>
        dsimp only
        cases goScanInt (result.getD p "") with
        | none => cases goScanInt (result.getD q "") <;> rfl
        | some a =>
          cases goScanInt (result.getD q "") with
          | none => rfl
          | some b =>
            by_cases hgap : ((q : Int) - (p : Int) = b - a)
            · simp only [hgap, if_pos]
              simp
            · simp only [if_neg hgap]

theorem interpolateStep_preserve (n : Nat) (st : List String × (Nat → Bool)) (x i : Nat)
    (hnum : st.2 i = true) :
    (interpolateStep n st x).1[i]? = st.1[i]? ∧ (interpolateStep n st x).2 i = true := by
  obtain ⟨result, numbered⟩ := st
  simp only at hnum
  unfold interpolateStep
  dsimp only
  by_cases hx : numbered x = true
  · rw [if_pos hx]
    exact ⟨rfl, hnum⟩
  · rw [if_neg hx]
    have hxi : x ≠ i := fun hc => hx (hc ▸ hnum)
    cases hfp : findPrevIdx numbered x with
    | none => cases findNextIdx numbered n (x + 1) <;> exact ⟨rfl, hnum⟩
    | some p =>
      cases hfn : findNextIdx numbered n (x + 1) with
      | none => exact ⟨rfl, hnum⟩
      | some q =>
        dsimp only
        cases goScanInt (result.getD p "") with
        | none => cases goScanInt (result.getD q "") <;> exact ⟨rfl, hnum⟩
        | some a =>
          cases goScanInt (result.getD q "") with
          | none => exact ⟨rfl, hnum⟩
          | some b =>
            dsimp only
            by_cases hgap : ((q : Int) - (p : Int) = b - a)
            · rw [if_pos hgap]
              refine ⟨List.getElem?_set_ne hxi, ?_⟩
              dsimp only
              rw [if_neg (fun hc => hxi hc.symm)]
              exact hnum
            · rw [if_neg hgap]
              exact ⟨rfl, hnum⟩

theorem foldl_interp_preserve (n : Nat) (xs : List Nat) (st : List String × (Nat → Bool))
    (i : Nat) (hnum : st.2 i = true) :
    (xs.foldl (interpolateStep n) st).1[i]? = st.1[i]? ∧
      (xs.foldl (interpolateStep n) st).2 i = true := by
  induction xs generalizing st with
  | nil => exact ⟨rfl, hnum⟩
  | cons x t ih =>
    simp only [List.foldl_cons]
    have h1 := interpolateStep_preserve n st x i hnum
    have h2 := ih (interpolateStep n st x) h1.2
    exact ⟨h2.1.trans h1.1, h2.2⟩

theorem foldl_interp_length (n : Nat) (xs : List Nat) (st : List String × (Nat → Bool)) :
    (xs.foldl (interpolateStep n) st).1.length = st.1.length := by
  induction xs generalizing st with
  | nil => rfl
  | cons x t ih =>
    simp only [List.foldl_cons]
    rw [ih, interpolateStep_length]

theorem extractSourceNumbers_length (pi : List PageInfo) :
    (extractSourceNumbers pi).length = pi.length := by
  unfold extractSourceNumbers
  simp only [List.length_map, List.enum_length]
  rw [foldl_interp_length, firstPass_length]
  simp

theorem validatePageNumbers_length (pages : List ParsedPage) :
    (validatePageNumbers pages).length = pages.length := by
  unfold validatePageNumbers
  dsimp only
  split
  · rw [extractSourceNumbers_length]
    unfold detectedPagesOf
    simp
  · simp

theorem validatePageNumbers_adopt_preserves (pages : List ParsedPage)
    (hbranch : useSourceNumbers (detectedPagesOf pages) (pageRangeInfoOf pages) = true)
    (i : Nat) (hi : i < pages.length)
    (hconf : mkRat 7 10 ≤ (pages.get ⟨i, hi⟩).pageNumberInfo.confidence)
    (hne : (pages.get ⟨i, hi⟩).pageNumberInfo.pageNumber ≠ "") :
    (validatePageNumbers pages)[i]? =
      some (pages.get ⟨i, hi⟩).pageNumberInfo.pageNumber := by
  unfold validatePageNumbers
  rw [if_pos hbranch]
  unfold extractSourceNumbers
  have hdet : detectedPagesOf pages = (pages.enumFrom 0).map detF := rfl
  have hn : (detectedPagesOf pages).length = pages.length := by
    unfold detectedPagesOf; simp
  have hconfB : isConfident (detF (0 + i, pages.get ⟨i, hi⟩)) = true := by
    simp only [isConfident, detF, decide_eq_true_eq]
    exact ⟨hconf, hne⟩
  have hfp := firstPass_spec pages 0 (List.replicate (detectedPagesOf pages).length "",
    fun _ => false) (by simp [hn])
  have hrec := hfp.2 i hi hconfB
  rw [Nat.zero_add] at hrec
  rw [hdet] at hrec ⊢
  set fp := ((pages.enumFrom 0).map detF).foldl firstPassStep
    (List.replicate ((pages.enumFrom 0).map detF).length "", fun _ => false) with hfpdef
  have hpres := foldl_interp_preserve ((pages.enumFrom 0).map detF).length
    (List.range ((pages.enumFrom 0).map detF).length) fp i hrec.2
  have hsecond : ((List.range ((pages.enumFrom 0).map detF).length).foldl
      (interpolateStep ((pages.enumFrom 0).map detF).length) fp).1[i]?
      = some (pages.get ⟨i, hi⟩).pageNumberInfo.pageNumber := by
    rw [hpres.1, hrec.1]
  simp only [List.getElem?_map, List.getElem?_enum, hsecond]
  simp only [Option.map_some']
  rw [if_neg hne]

theorem validatePageNumbers_fallback (pages : List ParsedPage)
    (hbranch : useSourceNumbers (detectedPagesOf pages) (pageRangeInfoOf pages) = false) :
    validatePageNumbers pages = (List.range pages.length).map fun i => goSprintfD (i + 1) := by
  unfold validatePageNumbers
  rw [if_neg (by rw [hbranch]; simp)]

/-- C4: for every sequence of parsed pages the validator returns
exactly one label per page; in the adopt branch every label of a page
with confidence ≥ 0.7 and non-empty detection (the set H) is preserved
verbatim at its page index; in the fallback branch the emitted labels
are exactly "1".."N". -/
theorem pageLabelSequence_spec (pages : List ParsedPage) :
    (validatePageNumbers pages).length = pages.length
    ∧ (useSourceNumbers (detectedPagesOf pages) (pageRangeInfoOf pages) = true →
        ∀ i, (hi : i < pages.length) →
          mkRat 7 10 ≤ (pages.get ⟨i, hi⟩).pageNumberInfo.confidence →
          (pages.get ⟨i, hi⟩).pageNumberInfo.pageNumber ≠ "" →
          (validatePageNumbers pages)[i]? =
            some (pages.get ⟨i, hi⟩).pageNumberInfo.pageNumber)
    ∧ (useSourceNumbers (detectedPagesOf pages) (pageRangeInfoOf pages) = false →
        validatePageNumbers pages =
          (List.range pages.length).map fun i => goSprintfD (i + 1)) :=
  ⟨validatePageNumbers_length pages,
   fun hb i hi hc hn => validatePageNumbers_adopt_preserves pages hb i hi hc hn,
   validatePageNumbers_fallback pages⟩

/-- Witness for C4: the three properties instantiated on concrete
documents (one adopting source labels, one falling back). -/
theorem pageLabelSequence_spec_witness :
    (validatePageNumbers adoptPages).length = adoptPages.length
    ∧ (validatePageNumbers adoptPages)[0]? = some "iv"
    ∧ validatePageNumbers fallbackPages =
        (List.range fallbackPages.length).map fun i => goSprintfD (i + 1) := by
  refine ⟨(pageLabelSequence_spec adoptPages).1, ?_, ?_⟩
  · exact (pageLabelSequence_spec adoptPages).2.1 (by decide) 0 (by decide)
      (by decide) (by decide)
  · exact (pageLabelSequence_spec fallbackPages).2.2 (by decide)

/-- C5 counterexample: a document on which the validator takes the
"use source numbers" branch yet emits the display label "iv" on two
distinct pages — the adopt branch does not guarantee uniqueness. -/
theorem adoptLabelsNotUnique_counterexample :
    useSourceNumbers (detectedPagesOf dupLabelPages) (pageRangeInfoOf dupLabelPages) = true
    ∧ validatePageNumbers dupLabelPages = ["iv", "iv", "1", "2", "3"]
    ∧ ¬ (validatePageNumbers dupLabelPages).Nodup :=
  ⟨by decide, by decide, by decide⟩

/-- C5 amended: display labels are pairwise distinct when the
validator takes its fallback branch (sequential "1".."N"); the adopt
branch preserves confident labels verbatim and therefore does not
guarantee uniqueness. -/
theorem fallbackLabelsUnique (pages : List ParsedPage)
    (hb : useSourceNumbers (detectedPagesOf pages) (pageRangeInfoOf pages) = false) :
    (validatePageNumbers pages).Nodup := by
  rw [validatePageNumbers_fallback pages hb]
  refine List.Nodup.map ?_ (List.nodup_range pages.length)
  intro a b hab
  have := goSprintfD_injective hab
  omega

/-- Witness for the amended C5 on a concrete fallback document. -/
theorem fallbackLabelsUnique_witness :
    useSourceNumbers (detectedPagesOf fallbackPages) (pageRangeInfoOf fallbackPages) = false
    ∧ (validatePageNumbers fallbackPages).Nodup :=
  ⟨by decide, fallbackLabelsUnique fallbackPages (by decide)⟩

theorem rateLimitedCallAux_spec {T : Type} (fn : Nat → Except String T) :
    ∀ (remaining attempt : Nat) (acc : List Nat) (e : String), 1 ≤ attempt →
      (attempt + min remaining 1 ≤ (rateLimitedCallAux fn attempt remaining acc e).calls
        ∧ (rateLimitedCallAux fn attempt remaining acc e).calls ≤ attempt + remaining
        ∧ (rateLimitedCallAux fn attempt remaining acc e).delays
            = acc.reverse ++ (List.range' attempt
                ((rateLimitedCallAux fn attempt remaining acc e).calls - attempt)).map
                  retryDelaySec) := by
  intro remaining
  induction remaining with
  | zero =>
    intro attempt acc e _
    refine ⟨by simp [rateLimitedCallAux], Nat.le_refl _, ?_⟩
    simp [rateLimitedCallAux]
  | succ rem ih =>
    intro attempt acc e h1
    show _ ∧ _ ∧ (rateLimitedCallAux fn attempt (rem + 1) acc e).delays = _
    rw [rateLimitedCallAux]
    have hpos : attempt > 0 := h1
    simp only [if_pos hpos]
    cases hfn : fn attempt with
    | ok v =>
      dsimp only
      refine ⟨by omega, by simp, ?_⟩
      simp [List.range'_succ, List.range']
    | error err =>
      dsimp only
      by_cases hrl : isRateLimitError err = true
      · rw [if_pos hrl]
        have IH := ih (attempt + 1) (retryDelaySec attempt :: acc) err (by omega)
        refine ⟨by omega, by omega, ?_⟩
        rw [IH.2.2]
        have hc : 1 ≤ (rateLimitedCallAux fn (attempt + 1) rem
            (retryDelaySec attempt :: acc) err).calls - attempt := by omega
        obtain ⟨m, hm⟩ := Nat.exists_eq_add_of_le hc
        have hcalls : (rateLimitedCallAux fn (attempt + 1) rem
            (retryDelaySec attempt :: acc) err).calls - attempt = m + 1 := by omega
        have hcalls' : (rateLimitedCallAux fn (attempt + 1) rem
            (retryDelaySec attempt :: acc) err).calls - (attempt + 1) = m := by omega
        rw [hcalls, hcalls', List.range'_succ]
        simp
      · rw [if_neg hrl]
        dsimp only
        refine ⟨by omega, by simp, ?_⟩
        simp [List.range'_succ, List.range']

/-- Behavior of the full retry loop, by one unfolding of the first
(delay-free) attempt followed by `rateLimitedCallAux_spec`. -/
theorem rateLimitedCall_trace {T : Type} (fn : Nat → Except String T) :
    (RateLimitedCall fn).calls ≤ 6
    ∧ 1 ≤ (RateLimitedCall fn).calls
    ∧ (RateLimitedCall fn).delays
        = (List.range' 1 ((RateLimitedCall fn).calls - 1)).map retryDelaySec := by
  show (RateLimitedCall fn).calls ≤ 6 ∧ _
  unfold RateLimitedCall
  rw [rateLimitedCallAux]
  simp only [maxRetries, gt_iff_lt, Nat.lt_irrefl, if_false]
  cases hfn : fn 0 with
  | ok v => exact ⟨by simp, by simp, by simp [List.range']⟩
  | error err =>
    dsimp only
    simp only [Nat.zero_add]
    by_cases hrl : isRateLimitError err = true
    · rw [if_pos hrl]
      have h := rateLimitedCallAux_spec fn 5 1 [] err (Nat.le_refl 1)
      exact ⟨by omega, by omega, by simpa using h.2.2⟩
    · rw [if_neg hrl]
      exact ⟨by simp, by simp, by simp [List.range']⟩

/-- C8 counterexample: with every attempt failing on a "429" error the
loop makes six calls — one initial attempt plus five retries — before
surfacing the rate-limit error, so "at most 5 attempts" is false of
the code. -/
theorem retryAttemptCount_counterexample :
    (RateLimitedCall (fun _ => (Except.error "429" : Except String Unit))).calls = 6
    ∧ (RateLimitedCall (fun _ => (Except.error "429" : Except String Unit))).delays
        = [1, 2, 4, 8, 16]
    ∧ (RateLimitedCall (fun _ => (Except.error "429" : Except String Unit))).result
        = Except.error "max retries (5) exceeded, last error: 429" :=
  ⟨by decide, by decide, by rfl⟩

/-- C8 amended: a rate-governed call is retried exactly when the
error's text contains one of "429", "rate limit",
"rate_limit_exceeded", "Too Many Requests"; the delay before retry k
is min(1s · 2^(k−1), 32s); at most 6 attempts (the initial call plus 5
retries) are made before the rate-limit error is surfaced; any
non-rate-limit error is returned immediately without retry. -/
theorem rateLimitRetryPolicy {T : Type} (fn : Nat → Except String T) :
    (RateLimitedCall fn).calls ≤ 6
    ∧ (RateLimitedCall fn).delays
        = (List.range' 1 ((RateLimitedCall fn).calls - 1)).map retryDelaySec
    ∧ (∀ e, fn 0 = Except.error e → isRateLimitError e = false →
        RateLimitedCall fn = ⟨Except.error e, 1, []⟩)
    ∧ (∀ e, fn 0 = Except.error e →
        (2 ≤ (RateLimitedCall fn).calls ↔ isRateLimitError e = true))
    ∧ (∀ e, isRateLimitError e =
        containsAny e ["429", "rate limit", "rate_limit_exceeded", "Too Many Requests"]) := by
  refine ⟨(rateLimitedCall_trace fn).1, (rateLimitedCall_trace fn).2.2, ?_, ?_, fun _ => rfl⟩
  · intro e hfn hrl
    unfold RateLimitedCall
    rw [rateLimitedCallAux]
    simp [hfn, hrl]
  · intro e hfn
    unfold RateLimitedCall
    rw [rateLimitedCallAux]
    simp only [maxRetries, gt_iff_lt, Nat.lt_irrefl, if_false, hfn]
    try dsimp only
    try simp only [Nat.zero_add]
    by_cases hrl : isRateLimitError e = true
    · rw [if_pos hrl]
      have h := rateLimitedCallAux_spec fn 5 1 [] e (Nat.le_refl 1)
      constructor
      · intro _; exact hrl
      · intro _; omega
    · rw [if_neg hrl]
      constructor
      · intro habs
        simp at habs
      · intro habs
        exact absurd habs hrl

/-- Witness for the amended C8: a call that fails with a rate-limit
error once and then succeeds is retried after a 1-second delay; a call
that fails with a non-rate-limit error is not retried. -/
theorem rateLimitRetryPolicy_witness :
    (RateLimitedCall (fun k => if k = 0 then Except.error "rate limit hit"
        else Except.ok (42 : Nat))).calls ≤ 6
    ∧ RateLimitedCall (fun _ => (Except.error "boom" : Except String Nat))
        = ⟨Except.error "boom", 1, []⟩
    ∧ (2 ≤ (RateLimitedCall (fun k => if k = 0 then Except.error "rate limit hit"
        else Except.ok (42 : Nat))).calls ↔ isRateLimitError "rate limit hit" = true) := by
  refine ⟨(rateLimitRetryPolicy _).1, ?_, ?_⟩
  · exact (rateLimitRetryPolicy (fun _ => (Except.error "boom" : Except String Nat))).2.2.1
      "boom" rfl (by decide)
  · exact (rateLimitRetryPolicy (fun k => if k = 0 then Except.error "rate limit hit"
      else Except.ok (42 : Nat))).2.2.2.1 "rate limit hit" rfl

/-- C10: if the extracted quotation set exceeds `maxQuotations` and
the prioritization pass fails, `ExtractQuotations` does not return an
error: it returns the full unprioritized list, so the caller may
receive more than `maxQuotations` quotations. -/
theorem prioritizeFailureReturnsAll_spec (parsedItem : ParsedItem) (maxQuotations : Int)
    (pagesOracle fullTextOracle : Except String (List Quotation))
    (q : List Quotation) (err : String)
    (hq : (if isPaginated parsedItem then pagesOracle else fullTextOracle) = Except.ok q)
    (hpos : 0 < maxQuotations) (hover : maxQuotations < (q.length : Int)) :
    ExtractQuotations parsedItem maxQuotations pagesOracle fullTextOracle
        (Except.error err) = Except.ok q := by
  unfold ExtractQuotations
  rw [hq]
  dsimp only
  rw [if_pos ⟨hpos, hover⟩]

/-- Witness for C10: two quotations with `maxQuotations = 1` and a
failing prioritization pass still yield both quotations and no
error. -/
theorem prioritizeFailureReturnsAll_spec_witness :
    ExtractQuotations ⟨ItemMetadata.empty, [], [], [], [], [], [], [], "", []⟩ 1
        (Except.error "unused")
        (Except.ok [⟨"q1", "", "", ""⟩, ⟨"q2", "", "", ""⟩])
        (Except.error "prioritization failed")
      = Except.ok [⟨"q1", "", "", ""⟩, ⟨"q2", "", "", ""⟩] :=
  prioritizeFailureReturnsAll_spec _ 1 _ _ _ "prioritization failed" rfl
    (by decide) (by decide)

/-- C7 counterexample: on a document with a non-empty stored summary
and no stored quotations, the quotations handler issues a summarize
LLM call anyway and feeds the fresh summary — not the stored one — to
quotation extraction, while the summarize handler's caching rule
issues no call and returns the stored summary. -/
theorem quotationsIgnoreCachedSummary_counterexample :
    documentQuotationsStep cachedSummaryItem (Except.ok "fresh")
        (fun s => Except.ok [⟨"q", "", "ctx: " ++ s, ""⟩])
      = (Except.ok [⟨"q", "", "ctx: fresh", ""⟩], 1)
    ∧ documentSummarizeStep cachedSummaryItem (Except.ok "fresh")
      = (Except.ok "cached", 0) :=
  ⟨rfl, rfl⟩

/-- C7 amended: with an empty stored quotation set the quotations
handler always makes exactly one summarize LLM call and uses that
fresh summary as extraction context, regardless of the stored summary
(the caching rule of the summarize handler — no call when the stored
summary is non-empty — is not applied); stored quotations, when
present, are returned with no summarize call. -/
theorem quotationsSummaryAlwaysFresh (parsedItem : ParsedItem)
    (summarizeOracle : Except String String)
    (extractOracle : String → Except String (List Quotation)) :
    (parsedItem.quotations = [] →
      (documentQuotationsStep parsedItem summarizeOracle extractOracle).2 = 1
      ∧ (∀ s, summarizeOracle = Except.ok s → ∀ qs, extractOracle s = Except.ok qs →
          (documentQuotationsStep parsedItem summarizeOracle extractOracle).1
            = Except.ok qs))
    ∧ (parsedItem.quotations ≠ [] →
        documentQuotationsStep parsedItem summarizeOracle extractOracle
          = (Except.ok parsedItem.quotations, 0))
    ∧ (parsedItem.summary ≠ "" →
        documentSummarizeStep parsedItem summarizeOracle
          = (Except.ok parsedItem.summary, 0)) := by
  refine ⟨?_, ?_, ?_⟩
  · intro hq
    unfold documentQuotationsStep
    rw [if_neg (by simp [hq])]
    constructor
    · cases summarizeOracle with
      | error e => rfl
      | ok s =>
        dsimp only
        cases extractOracle s <;> rfl
    · intro s hs qs hqs
      rw [hs]
      dsimp only
      rw [hqs]
  · intro hq
    unfold documentQuotationsStep
    rw [if_pos (by simpa using List.length_pos.mpr hq)]
  · intro hs
    unfold documentSummarizeStep
    rw [if_pos hs]

/-- Witness for the amended C7 at the concrete cached-summary
document. -/
theorem quotationsSummaryAlwaysFresh_witness :
    (documentQuotationsStep cachedSummaryItem (Except.ok "fresh")
        (fun _ => Except.ok [])).2 = 1
    ∧ documentSummarizeStep cachedSummaryItem (Except.ok "fresh")
        = (Except.ok "cached", 0) :=
  ⟨((quotationsSummaryAlwaysFresh cachedSummaryItem (Except.ok "fresh")
      (fun _ => Except.ok [])).1 rfl).1,
   (quotationsSummaryAlwaysFresh cachedSummaryItem (Except.ok "fresh")
      (fun _ => Except.ok [])).2.2 (by decide)⟩

/-! ### Properties of citekey collision handling -/

theorem toNat_charOfNat_of_lt (n : Nat) (h : n < 55296) : (Char.ofNat n).toNat = n := by
  have hv : n.isValidChar := Or.inl h
  rw [Char.ofNat, dif_pos hv]
  rfl

theorem numericCandidate_inj (base : String) (k₁ k₂ : Nat)
    (h₁ : 48 + k₁ < 55296) (h₂ : 48 + k₂ < 55296)
    (h : numericCandidate base k₁ = numericCandidate base k₂) : k₁ = k₂ := by
  unfold numericCandidate at h
  have hdata := congrArg String.data h
  simp only [String.data_append] at hdata
  have hsing := List.append_cancel_left hdata
  have hchar : Char.ofNat (48 + k₁) = Char.ofNat (48 + k₂) := by
    simpa using hsing
  have := congrArg Char.toNat hchar
  rw [toNat_charOfNat_of_lt _ h₁, toNat_charOfNat_of_lt _ h₂] at this
  omega

theorem numericSuffixSearch_not_mem (existing : List String) (base : String) :
    ∀ (fuel ns : Nat),
      (∃ k, ns ≤ k ∧ k < ns + fuel ∧ numericCandidate base k ∉ existing) →
      numericSuffixSearch existing base fuel ns ∉ existing := by
  intro fuel
  induction fuel with
  | zero =>
    intro ns ⟨k, hk1, hk2, _⟩
    omega
  | succ f ih =>
    intro ns ⟨k, hk1, hk2, hkfree⟩
    rw [numericSuffixSearch]
    by_cases hmem : existing.contains (numericCandidate base ns) = true
    · rw [if_pos hmem]
      have hne : k ≠ ns := by
        intro hcontr
        subst hcontr
        exact hkfree (by simpa [List.contains, List.elem_iff] using hmem)
      exact ih (ns + 1) ⟨k, by omega, by omega, hkfree⟩
    · rw [if_neg hmem]
      intro hc
      exact hmem (by simpa [List.contains, List.elem_iff] using hc)

theorem numericCandidate_exists_free (existing : List String) (base : String)
    (hsize : existing.length < 55000) :
    ∃ k, 1 ≤ k ∧ k < 1 + (existing.length + 1) ∧ numericCandidate base k ∉ existing := by
  by_contra hcontra
  push_neg at hcontra
  set L := (List.range (existing.length + 1)).map
    (fun i => numericCandidate base (1 + i)) with hL
  have hnd : L.Nodup := by
    refine List.Nodup.map_on ?_ (List.nodup_range _)
    intro x hx y hy hxy
    have hxlt : x < existing.length + 1 := List.mem_range.mp hx
    have hylt : y < existing.length + 1 := List.mem_range.mp hy
    have := numericCandidate_inj base (1 + x) (1 + y) (by omega) (by omega) hxy
    omega
  have hsub : L ⊆ existing := by
    intro s hs
    rw [hL] at hs
    obtain ⟨i, hi, hmap⟩ := List.mem_map.mp hs
    have hilt : i < existing.length + 1 := List.mem_range.mp hi
    rw [← hmap]
    exact hcontra (1 + i) (by omega) (by omega)
  have := (List.subperm_of_subset hnd hsub).length_le
  have hlen : L.length = existing.length + 1 := by simp [hL]
  omega

theorem citekeySuffixLoop_not_mem (existing : List String) (base : String)
    (hsize : existing.length < 55000) :
    ∀ (fuel suffix : Nat) (citekey : String), 124 ≤ suffix + fuel → 1 ≤ fuel →
      citekeySuffixLoop existing base (existing.length + 1) citekey suffix fuel
        ∉ existing := by
  intro fuel
  induction fuel with
  | zero => intro suffix citekey _ h; omega
  | succ f ih =>
    intro suffix citekey hsum _
    rw [citekeySuffixLoop]
    by_cases hmem : existing.contains citekey = true
    · rw [if_pos hmem]
      by_cases hz : suffix + 1 > 122
      · rw [if_pos hz]
        exact numericSuffixSearch_not_mem existing base (existing.length + 1) 1
          (numericCandidate_exists_free existing base hsize)
      · rw [if_neg hz]
        exact ih (suffix + 1) (base ++ String.mk [Char.ofNat suffix]) (by omega)
          (by omega)
    · rw [if_neg hmem]
      intro hc
      exact hmem (by simpa [List.contains, List.elem_iff] using hc)

/-- C9 counterexample: with the base citekey and every letter
candidate a–y taken, the claim predicts the free candidate
"unknownz", or failing that "unknownz0"; the code returns "unknownz1":
the candidates `base+"z"` and `base+"z0"` are never tried. -/
theorem citekeySuffixOrder_counterexample :
    GenerateCitekey ItemMetadata.empty lettersExhausted = "unknownz1"
    ∧ "unknownz" ∉ lettersExhausted
    ∧ "unknownz0" ∉ lettersExhausted :=
  ⟨by decide, by decide, by decide⟩

/-- C9 amended: letter suffixes a through y are tried in order; when
all of them and the base collide, numeric candidates z1, z2, … are
tried (`"z"` itself and `"z0"` are skipped); the first free candidate
found is returned and is therefore never in the existing set (shown
for existing sets of fewer than 55000 citekeys — beyond that the rune
arithmetic of the Go loop degenerates); in particular for authors
["Cormen, Thomas", "Leiserson, Charles", "Rivest, Ronald"], date
"2009" and existing set {"cormenEtAl2009"} the returned citekey is
"cormenEtAl2009a". -/
theorem citekeyCollisionResolution (metadata : ItemMetadata) (existing : List String)
    (hsize : existing.length < 55000) :
    GenerateCitekey metadata existing ∉ existing
    ∧ (citekeyBase metadata ∉ existing →
        GenerateCitekey metadata existing = citekeyBase metadata)
    ∧ (citekeyBase metadata ∈ existing → citekeyBase metadata ++ "a" ∉ existing →
        GenerateCitekey metadata existing = citekeyBase metadata ++ "a")
    ∧ GenerateCitekey { ItemMetadata.empty with
        authors := ["Cormen, Thomas", "Leiserson, Charles", "Rivest, Ronald"],
        publicationDate := "2009" } ["cormenEtAl2009"] = "cormenEtAl2009a" := by
  refine ⟨?_, ?_, ?_, by decide⟩
  · exact citekeySuffixLoop_not_mem existing (citekeyBase metadata) hsize 27 97
      (citekeyBase metadata) (by omega) (by omega)
  · intro hfree
    unfold GenerateCitekey
    rw [citekeySuffixLoop]
    rw [if_neg (by simpa [List.contains, List.elem_iff] using hfree)]
  · intro hbase hafree
    unfold GenerateCitekey
    rw [citekeySuffixLoop]
    rw [if_pos (by simpa [List.contains, List.elem_iff] using hbase)]
    rw [if_neg (by omega)]
    rw [citekeySuffixLoop]
    have hachar : String.mk [Char.ofNat 97] = "a" := by decide
    rw [hachar]
    rw [if_neg (by simpa [List.contains, List.elem_iff] using hafree)]

/-- Witness for the amended C9: freeness and the base-free case on
concrete inputs, plus the Cormen example. -/
theorem citekeyCollisionResolution_witness :
    GenerateCitekey ItemMetadata.empty ["unknown"] ∉ ["unknown"]
    ∧ GenerateCitekey { ItemMetadata.empty with
        authors := ["Cormen, Thomas", "Leiserson, Charles", "Rivest, Ronald"],
        publicationDate := "2009" } ["cormenEtAl2009"] = "cormenEtAl2009a" :=
  ⟨(citekeyCollisionResolution ItemMetadata.empty ["unknown"] (by decide)).1,
   (citekeyCollisionResolution ItemMetadata.empty ["unknown"] (by decide)).2.2.2⟩

/-- C3 counterexample: for a reference-manager source the identity
prefix is the literal "zotero_", not "ref_": with referenceManagerId
"ABC123" the id is "zotero_ABC123" ≠ "ref_ABC123". -/
theorem documentIDPrefix_counterexample :
    GenerateDocumentID ⟨"ABC123", ""⟩ ⟨[], "pdf"⟩ = "zotero_ABC123"
    ∧ GenerateDocumentID ⟨"ABC123", ""⟩ ⟨[], "pdf"⟩ ≠ "ref_ABC123" :=
  ⟨rfl, by decide⟩

/-- C3 amended: the document identity is "zotero_" + referenceManagerId
when the reference-manager id is non-empty, otherwise "url_" + hex of
the first 8 bytes of sha256(URL) when the URL is non-empty, otherwise
"data_" + hex of the first 8 bytes of sha256(bytes); the function is
deterministic (equal inputs give equal ids). -/
theorem documentIdentity (sourceInfo : SourceInfo) (documentData : DocumentData) :
    (sourceInfo.zoteroID ≠ "" →
      GenerateDocumentID sourceInfo documentData = "zotero_" ++ sourceInfo.zoteroID)
    ∧ (sourceInfo.zoteroID = "" → sourceInfo.url ≠ "" →
      GenerateDocumentID sourceInfo documentData
        = "url_" ++ bytesToHex ((sha256 (utf8Bytes sourceInfo.url)).take 8))
    ∧ (sourceInfo.zoteroID = "" → sourceInfo.url = "" →
      GenerateDocumentID sourceInfo documentData
        = "data_" ++ bytesToHex ((sha256 documentData.data).take 8))
    ∧ (∀ (si₂ : SourceInfo) (dd₂ : DocumentData), sourceInfo = si₂ → documentData = dd₂ →
        GenerateDocumentID sourceInfo documentData = GenerateDocumentID si₂ dd₂) := by
  refine ⟨?_, ?_, ?_, ?_⟩
  · intro h
    unfold GenerateDocumentID
    rw [if_pos h]
  · intro hz hu
    unfold GenerateDocumentID
    rw [if_neg (by simp [hz]), if_pos hu]
  · intro hz hu
    unfold GenerateDocumentID
    rw [if_neg (by simp [hz]), if_neg (by simp [hu])]
  · intro si₂ dd₂ h1 h2
    rw [h1, h2]

/-- Witness for the amended C3: the URL branch evaluated at a concrete
URL, with the digest computed down to its hex literal. -/
theorem documentIdentity_witness :
    GenerateDocumentID ⟨"", "https://example.com/paper.pdf"⟩ ⟨[], "pdf"⟩
      = "url_" ++ bytesToHex ((sha256 (utf8Bytes "https://example.com/paper.pdf")).take 8)
    ∧ GenerateDocumentID ⟨"", "https://example.com/paper.pdf"⟩ ⟨[], "pdf"⟩
      = "url_065f30cd516e3c8b" :=
  ⟨(documentIdentity ⟨"", "https://example.com/paper.pdf"⟩ ⟨[], "pdf"⟩).2.1 rfl
      (by decide),
   by decide⟩

/-! ### Keyed-table lemmas -/

theorem lookupRow_enumFrom {α : Type} (vs : List α) :
    ∀ (offset k : Nat),
      lookupRow (List.enumFrom offset vs) k
        = if offset ≤ k then vs.get? (k - offset) else none := by
  induction vs with
  | nil =>
    intro offset k
    simp [lookupRow, List.enumFrom]
  | cons v t ih =>
    intro offset k
    simp only [List.enumFrom, lookupRow, List.find?]
    by_cases hk : offset = k
    · subst hk
      simp [List.find?]
    · have : (decide (offset = k)) = false := by simpa using hk
      rw [this]
      have := ih (offset + 1) k
      rw [lookupRow] at this
      rw [this]
      by_cases h1 : offset + 1 ≤ k
      · rw [if_pos h1, if_pos (by omega)]
        have : k - offset = (k - (offset + 1)) + 1 := by omega
        rw [this]
        rfl
      · rw [if_neg h1, if_neg (by omega)]

theorem maxKey_enumFrom_aux {α : Type} (vs : List α) :
    ∀ (offset i : Nat), vs ≠ [] →
      List.foldl (fun m p => max m p.1) i (List.enumFrom offset vs)
        = max i (offset + vs.length - 1) := by
  induction vs with
  | nil => intro _ _ h; exact absurd rfl h
  | cons v t ih =>
    intro offset i _
    simp only [List.enumFrom, List.foldl_cons]
    cases ht : t with
    | nil =>
      simp [List.enumFrom]
    | cons w u =>
      rw [← ht, ih (offset + 1) (max i offset) (by simp [ht])]
      have htlen : 1 ≤ t.length := by simp [ht]
      simp only [List.length_cons]
      omega

theorem maxKey_enumFrom {α : Type} (vs : List α) (offset : Nat) (h : vs ≠ []) :
    maxKey (List.enumFrom offset vs) = offset + vs.length - 1 := by
  unfold maxKey
  rw [maxKey_enumFrom_aux vs offset 0 h]
  have : 1 ≤ vs.length := List.length_pos.mpr h
  omega

theorem map_enumFrom_shift {α β : Type} (t : List α) :
    ∀ (n : Nat) (g : Nat → α → β),
      (List.enumFrom n t).map (fun p => g (p.1 + 1) p.2)
        = (List.enumFrom (n + 1) t).map (fun p => g p.1 p.2) := by
  induction t with
  | nil => intro n g; rfl
  | cons v u ih =>
    intro n g
    simp only [List.enumFrom, List.map_cons]
    rw [ih (n + 1) g]

theorem filterMapRangeLookup {α β : Type} (vs : List α) :
    ∀ (g : Nat → α → β),
      (List.range vs.length).filterMap
          (fun k => (lookupRow (List.enumFrom 0 vs) k).map (g k))
        = (List.enumFrom 0 vs).map (fun p => g p.1 p.2) := by
  induction vs with
  | nil => intro g; rfl
  | cons v t ih =>
    intro g
    simp only [List.length_cons]
    rw [List.range_succ_eq_map]
    rw [List.filterMap_cons]
    have h0 : lookupRow (List.enumFrom 0 (v :: t)) 0 = some v := by
      rw [lookupRow_enumFrom]
      simp
    rw [h0]
    simp only [Option.map_some']
    rw [List.filterMap_map]
    have hcong : ∀ k ∈ List.range t.length,
        ((fun k => (lookupRow (List.enumFrom 0 (v :: t)) k).map (g k)) ∘ Nat.succ) k
          = (fun k => (lookupRow (List.enumFrom 0 t) k).map ((fun j w => g (j + 1) w) k)) k := by
      intro k _
      simp only [Function.comp]
      rw [lookupRow_enumFrom, lookupRow_enumFrom]
      simp
    rw [List.filterMap_congr hcong, ih (fun j w => g (j + 1) w)]
    simp only [List.enumFrom, List.map_cons]
    rw [map_enumFrom_shift t 0 g]

theorem filterMapRangeLookupGen {α β : Type} :
    ∀ (offset : Nat) (vs : List α) (g : Nat → α → β),
      (List.range (offset + vs.length)).filterMap
          (fun k => (lookupRow (List.enumFrom offset vs) k).map (g k))
        = (List.enumFrom offset vs).map (fun p => g p.1 p.2) := by
  intro offset
  induction offset with
  | zero =>
    intro vs g
    simpa using filterMapRangeLookup vs g
  | succ m ih =>
    intro vs g
    have hn : m + 1 + vs.length = (m + vs.length) + 1 := by omega
    rw [hn, List.range_succ_eq_map, List.filterMap_cons]
    have h0 : lookupRow (List.enumFrom (m + 1) vs) 0 = none := by
      rw [lookupRow_enumFrom]
      rw [if_neg (by omega)]
    rw [h0]
    simp only [Option.map_none']
    rw [List.filterMap_map]
    have hcong : ∀ k ∈ List.range (m + vs.length),
        ((fun k => (lookupRow (List.enumFrom (m + 1) vs) k).map (g k)) ∘ Nat.succ) k
          = (fun k => (lookupRow (List.enumFrom m vs) k).map ((fun j w => g (j + 1) w) k)) k := by
      intro k _
      simp only [Function.comp]
      rw [lookupRow_enumFrom, lookupRow_enumFrom]
      by_cases hk : m ≤ k
      · rw [if_pos (by omega), if_pos hk]
        have : k + 1 - (m + 1) = k - m := by omega
        rw [this]
      · rw [if_neg (by omega), if_neg hk]
    rw [List.filterMap_congr hcong, ih vs (fun j w => g (j + 1) w)]
    rw [map_enumFrom_shift vs m g]

theorem selectOrdered_enumFrom {α : Type} (vs : List α) (offset : Nat) :
    selectOrdered (List.enumFrom offset vs) = vs := by
  cases hvs : vs with
  | nil => simp [selectOrdered, List.enumFrom, lookupRow]
  | cons v t =>
    rw [← hvs]
    have hne : vs ≠ [] := by simp [hvs]
    unfold selectOrdered
    rw [maxKey_enumFrom vs offset hne]
    have hlen : offset + vs.length - 1 + 1 = offset + vs.length := by
      have : 1 ≤ vs.length := List.length_pos.mpr hne
      omega
    rw [hlen]
    have hmapid : lookupRow (List.enumFrom offset vs)
        = fun k => (lookupRow (List.enumFrom offset vs) k).map ((fun _ w => w) k) := by
      funext k
      simp
    rw [hmapid, filterMapRangeLookupGen offset vs (fun _ w => w)]
    exact List.enumFrom_map_snd offset vs

theorem selectOrderedKV_enumFrom {α : Type} (vs : List α) (offset : Nat) :
    selectOrderedKV (List.enumFrom offset vs) = List.enumFrom offset vs := by
  cases hvs : vs with
  | nil => simp [selectOrderedKV, List.enumFrom, lookupRow]
  | cons v t =>
    rw [← hvs]
    have hne : vs ≠ [] := by simp [hvs]
    unfold selectOrderedKV
    rw [maxKey_enumFrom vs offset hne]
    have hlen : offset + vs.length - 1 + 1 = offset + vs.length := by
      have : 1 ≤ vs.length := List.length_pos.mpr hne
      omega
    rw [hlen]
    rw [filterMapRangeLookupGen offset vs (fun k w => (k, w))]
    have : (fun p : Nat × α => (p.1, p.2)) = id := by
      funext p
      rfl
    rw [this, List.map_id]

theorem storeRows_append {α : Type} (vs : List α) :
    ∀ (offset : Nat) (t : List (Nat × α)), (∀ p ∈ t, p.1 < offset) →
      storeRows offset vs t = t ++ List.enumFrom offset vs := by
  induction vs with
  | nil => intro offset t _; simp [storeRows, List.enumFrom]
  | cons v vs ih =>
    intro offset t ht
    rw [storeRows]
    have hup : upsertRow offset v t = t ++ [(offset, v)] := by
      unfold upsertRow
      rw [List.filter_eq_self.mpr]
      intro p hp
      have := ht p hp
      simpa using by omega
    rw [hup, ih (offset + 1) (t ++ [(offset, v)]) ?_]
    · simp [List.enumFrom]
    · intro p hp
      rcases List.mem_append.mp hp with h | h
      · have := ht p h; omega
      · simp at h
        subst h
        exact Nat.lt_succ_self offset

theorem storeRows_empty {α : Type} (vs : List α) (offset : Nat) :
    storeRows offset vs [] = List.enumFrom offset vs := by
  simpa using storeRows_append vs offset [] (by simp)

/-! ### Round-trip lemmas for the store -/

theorem pageMappingFold :
    ∀ (l : List (Nat × PageRow)) (acc : List (String × Nat)),
      (∀ p ∈ l, ∀ q ∈ acc, q.1 ≠ p.2.sourcePageNumber) →
      (l.map (fun p => p.2.sourcePageNumber)).Nodup →
      l.foldl (fun m p => insertOverwrite p.2.sourcePageNumber p.1 m) acc
        = acc ++ l.map (fun p => (p.2.sourcePageNumber, p.1)) := by
  intro l
  induction l with
  | nil => intro acc _ _; simp
  | cons p t ih =>
    intro acc hdisj hnod
    simp only [List.foldl_cons]
    simp only [List.map_cons, List.nodup_cons] at hnod
    have hstep : insertOverwrite p.2.sourcePageNumber p.1 acc
        = acc ++ [(p.2.sourcePageNumber, p.1)] := by
      unfold insertOverwrite
      rw [List.filter_eq_self.mpr]
      intro q hq
      have := hdisj p (by simp) q hq
      simpa using this
    rw [hstep, ih (acc ++ [(p.2.sourcePageNumber, p.1)]) ?_ hnod.2]
    · simp
    · intro r hr q hq
      rcases List.mem_append.mp hq with h | h
      · exact hdisj r (List.mem_cons_of_mem p hr) q h
      · simp at h
        subst h
        intro heq
        have heq' : p.2.sourcePageNumber = r.2.sourcePageNumber := heq
        apply hnod.1
        rw [heq']
        exact List.mem_map_of_mem (fun p => p.2.sourcePageNumber) hr

theorem enumMapPair (rows : List PageRow) :
    ∀ n : Nat,
      (List.enumFrom n rows).map (fun p => (p.2.sourcePageNumber, p.1))
        = (List.enumFrom n (rows.map PageRow.sourcePageNumber)).map
            (fun p => (p.2, p.1)) := by
  induction rows with
  | nil => intro n; rfl
  | cons r t ih =>
    intro n
    simp only [List.enumFrom, List.map_cons]
    rw [ih (n + 1)]

theorem rebuild_foldl (labels : List String) :
    ∀ (offset : Nat) (arr : List String), arr.length = offset + labels.length →
      List.foldl
        (fun arr p => if 0 < p.2 ∧ p.2 ≤ arr.length then arr.set (p.2 - 1) p.1 else arr)
        arr ((List.enumFrom (offset + 1) labels).map (fun p => (p.2, p.1)))
        = arr.take offset ++ labels := by
  induction labels with
  | nil =>
    intro offset arr hlen
    simp only [List.enumFrom, List.map_nil, List.foldl_nil, List.append_nil]
    rw [show offset = arr.length by simpa using hlen.symm, List.take_length]
  | cons lab rest ih =>
    intro offset arr hlen
    simp only [List.length_cons] at hlen
    simp only [List.enumFrom, List.map_cons, List.foldl_cons]
    have hcond : 0 < offset + 1 ∧ offset + 1 ≤ arr.length := ⟨Nat.succ_pos _, by omega⟩
    rw [if_pos hcond]
    simp only [Nat.add_sub_cancel]
    rw [ih (offset + 1) (arr.set offset lab) (by rw [List.length_set]; omega)]
    have hofflt : offset < arr.length := by omega
    have htake : (arr.set offset lab).take (offset + 1) = arr.take offset ++ [lab] := by
      rw [List.take_succ, List.set_take,
        List.set_eq_of_length_le (by rw [List.length_take]; omega),
        List.getElem?_set_self hofflt]
      rfl
    rw [htake, List.append_assoc]
    rfl

/-- Round trip of a freshly stored document: with one non-empty label
per page and no duplicate labels, every persisted field — the six
metadata columns, pages in order, page labels, references, images,
tables, footnotes, endnotes — is recovered exactly; the ten
unpersisted metadata fields and `summary`/`quotations` come back at
their zero values. -/
theorem storeGetParsedItem_fresh (docID : String) (item : ParsedItem)
    (si : SourceInfo) (db : DB)
    (hempty : db docID = DocState.empty)
    (hlen : item.pageNumbers.length = item.pages.length)
    (hne : ∀ s ∈ item.pageNumbers, s ≠ "")
    (hnod : item.pageNumbers.Nodup) :
    GetParsedItem (StoreParsedItem docID item si db) docID
      = Except.ok ⟨persistedMetadata item.metadata, item.pages, item.pageNumbers,
          item.references, item.images, item.tables,
          item.footnotes, item.endnotes, "", []⟩ := by
  have hds : (StoreParsedItem docID item si db) docID
      = { root := some ⟨item.metadata.title, item.metadata.authors,
            item.metadata.publicationDate, item.metadata.publication,
            item.metadata.doi, item.metadata.abstract, si.zoteroID, si.url⟩
          pages := List.enumFrom 1 (pageRowsOf item)
          references := List.enumFrom 0 item.references
          images := List.enumFrom 0 item.images
          tables := List.enumFrom 0 item.tables
          footnotes := List.enumFrom 0 item.footnotes
          endnotes := List.enumFrom 0 item.endnotes } := by
    unfold StoreParsedItem
    dsimp only
    rw [if_pos rfl, hempty]
    simp only [DocState.empty]
    rw [storeRows_empty, storeRows_empty, storeRows_empty, storeRows_empty,
      storeRows_empty, storeRows_empty]
  have hlabels : (pageRowsOf item).map PageRow.sourcePageNumber = item.pageNumbers := by
    apply List.ext_getElem
    · simp [pageRowsOf, hlen]
    · intro i h1 h2
      simp only [pageRowsOf, List.getElem_map, List.getElem_enum]
      have hi : i < item.pageNumbers.length := h2
      have hgetd : item.pageNumbers.getD i "" = item.pageNumbers[i] := by
        rw [List.getD_eq_getElem?_getD, List.getElem?_eq_getElem hi]
        rfl
      have hcne : item.pageNumbers.getD i "" ≠ "" := by
        rw [hgetd]
        exact hne _ (List.getElem_mem hi)
      unfold storedPageLabel
      rw [if_pos ⟨hi, hcne⟩, hgetd]
  have hmeta : GetMetadata (StoreParsedItem docID item si db) docID
      = Except.ok (persistedMetadata item.metadata) := by
    unfold GetMetadata persistedMetadata
    rw [hds]
  have hpages : GetPages (StoreParsedItem docID item si db) docID = item.pages := by
    unfold GetPages
    rw [hds]
    dsimp only
    rw [selectOrdered_enumFrom, pageRowsOf, List.map_map]
    rw [show (PageRow.content ∘ fun p : Nat × String =>
        PageRow.mk (storedPageLabel item p.1) p.2) = Prod.snd from rfl]
    exact List.enumFrom_map_snd 0 item.pages
  have hmapnodup : ((List.enumFrom 1 (pageRowsOf item)).map
      (fun p => p.2.sourcePageNumber)).Nodup := by
    have h1 : (List.enumFrom 1 (pageRowsOf item)).map (fun p => p.2.sourcePageNumber)
        = (pageRowsOf item).map PageRow.sourcePageNumber := by
      rw [show (fun p : Nat × PageRow => p.2.sourcePageNumber)
          = (PageRow.sourcePageNumber ∘ Prod.snd) from rfl, ← List.map_map,
        List.enumFrom_map_snd]
    rw [h1, hlabels]
    exact hnod
  have hmapping : GetPageMapping (StoreParsedItem docID item si db) docID
      = (List.enumFrom 1 (pageRowsOf item)).map
          (fun p => (p.2.sourcePageNumber, p.1)) := by
    unfold GetPageMapping
    rw [hds]
    dsimp only
    rw [selectOrderedKV_enumFrom]
    have := pageMappingFold (List.enumFrom 1 (pageRowsOf item)) []
      (by intro p _ q hq; cases hq) hmapnodup
    simpa using this
  have hrebuild : rebuildPageNumbers item.pages.length
      ((List.enumFrom 1 (pageRowsOf item)).map (fun p => (p.2.sourcePageNumber, p.1)))
      = item.pageNumbers := by
    rw [enumMapPair (pageRowsOf item) 1, hlabels]
    unfold rebuildPageNumbers
    have := rebuild_foldl item.pageNumbers 0
      (List.replicate item.pages.length "")
      (by rw [List.length_replicate]; omega)
    simpa using this
  unfold GetParsedItem
  rw [hmeta]
  dsimp only
  rw [hpages, hmapping, hrebuild, hds]
  dsimp only
  rw [selectOrdered_enumFrom, selectOrdered_enumFrom, selectOrdered_enumFrom,
    selectOrdered_enumFrom, selectOrdered_enumFrom]

/-- C2: store round-trip (amended).  For a document id with no prior
rows, storing then retrieving recovers the six persisted metadata
columns (title, authors, publication date, publication, DOI,
abstract), pages in order, references, images, tables, footnotes and
endnotes in order, and every page's display label — provided the
document carries exactly one label per page and the labels are
non-empty and pairwise distinct.  The ten unpersisted metadata fields
(source tag, item type, publisher, volume, issue, pages range, ISSN,
ISBN, URL, citekey) and `summary`/`quotations` come back at their zero
values, so the full metadata record is recovered only when those
fields were already zero. -/
theorem storeRoundTrip (docID : String) (item : ParsedItem) (si : SourceInfo)
    (db : DB) (hempty : db docID = DocState.empty)
    (hlen : item.pageNumbers.length = item.pages.length)
    (hne : ∀ s ∈ item.pageNumbers, s ≠ "")
    (hnod : item.pageNumbers.Nodup) :
    GetParsedItem (StoreParsedItem docID item si db) docID
      = Except.ok ⟨persistedMetadata item.metadata, item.pages, item.pageNumbers,
          item.references, item.images, item.tables,
          item.footnotes, item.endnotes, "", []⟩ :=
  storeGetParsedItem_fresh docID item si db hempty hlen hne hnod

/-- C2 witness: the round trip on a concrete two-page document with
labels "iv" and "2" and all unpersisted metadata fields zero. -/
theorem storeRoundTrip_witness :
    GetParsedItem (StoreParsedItem "d" romanItem ⟨"", ""⟩ emptyDB) "d"
      = Except.ok ⟨persistedMetadata romanItem.metadata, romanItem.pages,
          romanItem.pageNumbers, romanItem.references, romanItem.images,
          romanItem.tables, romanItem.footnotes, romanItem.endnotes, "", []⟩ :=
  storeRoundTrip "d" romanItem ⟨"", ""⟩ emptyDB rfl (by decide) (by decide) (by decide)

/-- C2 counterexample, two independent failures of `getParsedDocument
(store D) = D`.  Metadata: a document whose source tag is "extracted"
and whose citekey is "t2001" — as every pipeline item is tagged —
comes back with both fields empty, even though its labels are distinct
and non-empty.  Page labels: a fresh document whose two pages both
carry the label "x" reads back as ["", "x"], because the
label→sequential mapping keeps only the later page of a duplicated
label. -/
theorem storeRoundTrip_counterexample :
    GetParsedItem (StoreParsedItem "doc" taggedItem ⟨"", ""⟩ emptyDB) "doc"
      = Except.ok { taggedItem with metadata := persistedMetadata taggedItem.metadata }
    ∧ persistedMetadata taggedItem.metadata ≠ taggedItem.metadata
    ∧ GetParsedItem (StoreParsedItem "doc" dupLabelItem ⟨"", ""⟩ emptyDB) "doc"
      = Except.ok { dupLabelItem with pageNumbers := ["", "x"] }
    ∧ (["", "x"] : List String) ≠ dupLabelItem.pageNumbers :=
  ⟨by rfl, by decide, by rfl, by decide⟩

/-- The store-irrelevant fields of `markExtracted item` are those of
`item`: only the metadata record changes. -/
theorem markExtracted_fields (item : ParsedItem) :
    (markExtracted item).pages = item.pages
    ∧ (markExtracted item).pageNumbers = item.pageNumbers
    ∧ (markExtracted item).references = item.references
    ∧ (markExtracted item).images = item.images
    ∧ (markExtracted item).tables = item.tables
    ∧ (markExtracted item).footnotes = item.footnotes
    ∧ (markExtracted item).endnotes = item.endnotes := by
  unfold markExtracted
  split
  · exact ⟨rfl, rfl, rfl, rfl, rfl, rfl, rfl⟩
  · exact ⟨rfl, rfl, rfl, rfl, rfl, rfl, rfl⟩

/-- After the marking, the metadata source tag is never empty. -/
theorem markExtracted_tag_ne (item : ParsedItem) :
    (markExtracted item).metadata.metadataSource ≠ "" := by
  unfold markExtracted
  by_cases h : item.metadata.metadataSource = ""
  · rw [if_pos h]
    exact fun hc => (by decide : ("extracted" : String) ≠ "") hc
  · rw [if_neg h]
    exact h

/-- C1: parse idempotence (amended).  On the raw-data path with the
API key set, a fresh identity and a successful parse whose page labels
are one per page, non-empty and distinct: the first call stores and
returns the parsed item tagged `MetadataSource = "extracted"`; the
second call issues no parser work, returns the same document id, and
returns the stored projection of that item — equal on pages, page
labels and the child sequences, with the six persisted metadata
columns intact but the ten unpersisted metadata fields and
summary/quotations zeroed.  The two returned `ParsedItem` values are
never equal: the first call's source tag is non-empty ("extracted")
while the retrieved one is empty. -/
theorem getOrParseIdempotent
    (zoteroID url : String) (bytes : List Nat) (docType : String)
    (detectType : List Nat → String)
    (fetch : Except String (DocumentData × Option ItemMetadata))
    (parse : DocumentData → Except String ParsedItem)
    (db : DB) (item : ParsedItem)
    (hfresh : db (GenerateDocumentID ⟨zoteroID, url⟩
        (rawDocData bytes docType detectType)) = DocState.empty)
    (hparse : parse (rawDocData bytes docType detectType) = Except.ok item)
    (hlen : item.pageNumbers.length = item.pages.length)
    (hne : ∀ s ∈ item.pageNumbers, s ≠ "")
    (hnod : item.pageNumbers.Nodup) :
    GetOrParseDocument zoteroID url (some bytes) docType detectType fetch true parse db
      = (Except.ok (GenerateDocumentID ⟨zoteroID, url⟩
            (rawDocData bytes docType detectType), markExtracted item),
         StoreParsedItem (GenerateDocumentID ⟨zoteroID, url⟩
            (rawDocData bytes docType detectType)) (markExtracted item)
           ⟨zoteroID, url⟩ db, true)
    ∧ GetOrParseDocument zoteroID url (some bytes) docType detectType fetch true parse
        (StoreParsedItem (GenerateDocumentID ⟨zoteroID, url⟩
            (rawDocData bytes docType detectType)) (markExtracted item)
          ⟨zoteroID, url⟩ db)
      = (Except.ok (GenerateDocumentID ⟨zoteroID, url⟩
            (rawDocData bytes docType detectType),
          (⟨persistedMetadata (markExtracted item).metadata, item.pages,
            item.pageNumbers, item.references, item.images, item.tables,
            item.footnotes, item.endnotes, "", []⟩ : ParsedItem)),
         StoreParsedItem (GenerateDocumentID ⟨zoteroID, url⟩
            (rawDocData bytes docType detectType)) (markExtracted item)
           ⟨zoteroID, url⟩ db, false)
    ∧ persistedMetadata (markExtracted item).metadata ≠ (markExtracted item).metadata := by
  obtain ⟨hp, hpn, hr, him, htb, hf, he⟩ := markExtracted_fields item
  refine ⟨?_, ?_, ?_⟩
  · unfold GetOrParseDocument
    dsimp only
    unfold getOrParseStep
    dsimp only
    have hex : DocumentExists db (GenerateDocumentID ⟨zoteroID, url⟩
        (rawDocData bytes docType detectType)) = false := by
      unfold DocumentExists
      rw [hfresh]
      rfl
    rw [hex]
    simp only [Bool.false_eq_true, if_false, hparse]
    rw [if_neg (by simp)]
  · unfold GetOrParseDocument
    dsimp only
    unfold getOrParseStep
    dsimp only
    have hex : DocumentExists (StoreParsedItem (GenerateDocumentID ⟨zoteroID, url⟩
        (rawDocData bytes docType detectType)) (markExtracted item)
        ⟨zoteroID, url⟩ db)
        (GenerateDocumentID ⟨zoteroID, url⟩ (rawDocData bytes docType detectType))
        = true := by
      unfold DocumentExists StoreParsedItem
      dsimp only
      rw [if_pos rfl]
      rfl
    rw [hex]
    simp only [if_pos]
    rw [storeGetParsedItem_fresh (GenerateDocumentID ⟨zoteroID, url⟩
      (rawDocData bytes docType detectType)) (markExtracted item) ⟨zoteroID, url⟩ db
      hfresh (by rw [hpn, hp]; exact hlen) (by rw [hpn]; exact hne)
      (by rw [hpn]; exact hnod)]
    dsimp only
    rw [hp, hpn, hr, him, htb, hf, he]
  · intro heq
    exact markExtracted_tag_ne item (by rw [← heq]; rfl)

/-- C1 witness: on a concrete raw-data document the second call does
not touch the parser, leaves the store unchanged, and returns the
stored projection of the first call's item. -/
theorem getOrParseIdempotent_witness :
    GetOrParseDocument "z9" "" (some [1]) "pdf" (fun _ => "pdf") (Except.error "")
        true (fun _ => Except.ok romanItem)
        (StoreParsedItem (GenerateDocumentID ⟨"z9", ""⟩
            (rawDocData [1] "pdf" (fun _ => "pdf"))) (markExtracted romanItem)
          ⟨"z9", ""⟩ emptyDB)
      = (Except.ok (GenerateDocumentID ⟨"z9", ""⟩
            (rawDocData [1] "pdf" (fun _ => "pdf")),
          (⟨persistedMetadata (markExtracted romanItem).metadata, romanItem.pages,
            romanItem.pageNumbers, romanItem.references, romanItem.images,
            romanItem.tables, romanItem.footnotes, romanItem.endnotes, "", []⟩ :
            ParsedItem)),
         StoreParsedItem (GenerateDocumentID ⟨"z9", ""⟩
            (rawDocData [1] "pdf" (fun _ => "pdf"))) (markExtracted romanItem)
           ⟨"z9", ""⟩ emptyDB, false) :=
  (getOrParseIdempotent "z9" "" [1] "pdf" (fun _ => "pdf") (Except.error "")
    (fun _ => Except.ok romanItem) emptyDB romanItem rfl rfl (by decide) (by decide)
    (by decide)).2.1

/-- C1 counterexample: even with distinct non-empty page labels the
two calls do not return equal `ParsedItem` values: the first call's
item carries `MetadataSource = "extracted"`, while the second call's
store-retrieved item has an empty tag (the store persists six metadata
columns only). -/
theorem getOrParse_counterexample :
    (GetOrParseDocument "z9" "" (some [1]) "pdf" (fun _ => "pdf") (Except.error "")
        true (fun _ => Except.ok romanItem) emptyDB).1
      = Except.ok ("zotero_z9", markExtracted romanItem)
    ∧ (markExtracted romanItem).metadata.metadataSource = "extracted"
    ∧ (GetOrParseDocument "z9" "" (some [1]) "pdf" (fun _ => "pdf") (Except.error "")
        true (fun _ => Except.ok romanItem)
        ((GetOrParseDocument "z9" "" (some [1]) "pdf" (fun _ => "pdf")
            (Except.error "") true (fun _ => Except.ok romanItem) emptyDB).2.1)).1
      = Except.ok ("zotero_z9",
          { markExtracted romanItem with
              metadata := persistedMetadata (markExtracted romanItem).metadata })
    ∧ { markExtracted romanItem with
          metadata := persistedMetadata (markExtracted romanItem).metadata }
        ≠ markExtracted romanItem :=
  ⟨by rfl, by rfl, by rfl, by decide⟩

/-- C6: reading `pdf://<id>/pages/<label>` for a stored non-numeric
display label such as "iv" fails as a bad request ("invalid index:
iv") even though the store lookup for that label succeeds: the
`strconv.Atoi` guard on the third path segment runs before the switch
can dispatch to the pages branch.  A numeric label is returned as the
page payload. -/
theorem pagesByLabel_bug
    (otherResource : String → String → Int → Except String String) :
    GetPageBySourceNumber romanDB "doc1" "iv" = Except.ok "front matter"
    ∧ ReadResource romanDB otherResource "pdf://doc1/pages/iv"
        = Except.error "invalid index: iv"
    ∧ ReadResource romanDB otherResource "pdf://doc1/pages/2"
        = Except.ok (pageIdentifierJson "2" "body") :=
  ⟨by rfl, by rfl, by rfl⟩

/-- C6 witness: the bug at a concrete resource renderer. -/
theorem pagesByLabel_bug_witness :
    ReadResource romanDB (fun _ _ _ => Except.error "") "pdf://doc1/pages/iv"
      = Except.error "invalid index: iv" :=
  (pagesByLabel_bug (fun _ _ _ => Except.error "")).2.1

end AcademicMCP
